import Mathlib

/-!
Verification of the transcript-ingestion and live-index subsystem of the
`verbose` session browser.  The definitions below are a shallow embedding of
the Go sources: `rawEntry`/`rawMessage`/`rawUsage` mirror the JSONL record
types, `ParseSessionFile` mirrors the two-pass parser (revision resolution
followed by event building), and the `Store` operations mirror the session
index.  Machine integers of the source (Go `int`) are modeled as `Int`;
`float64` cost arithmetic is modeled exactly over `Rat`; `time.Time` is
modeled as nanoseconds since the Go zero time (January 1, year 1, UTC).
-/

set_option maxHeartbeats 1000000

namespace Verbose

mutual
/-- A decoded JSON value, modelling Go `interface\x7b\x7d` values produced by
`json.Unmarshal`: strings, numbers (kept as their literal text, since no
arithmetic is ever performed on them), booleans, null, arrays and objects. -/
inductive JVal where
  | jstr  (s : String)
  | jnum  (lit : String)
  | jbool (b : Bool)
  | jnull
  | jarr  (xs : JArr)
  | jobj  (kvs : JObj)
  deriving DecidableEq
/-- A JSON array (Go `List of interface` values), as its own list type so that
all recursions stay structural. -/
inductive JArr where
  | nil
  | cons (hd : JVal) (tl : JArr)
  deriving DecidableEq
/-- A JSON object (Go `map of string to interface`), as an association list. -/
inductive JObj where
  | nil
  | cons (k : String) (v : JVal) (tl : JObj)
  deriving DecidableEq
end

/-- Left fold over a JSON array, mirroring a Go `for range` over a slice. -/
def JArr.foldl {α : Type} (f : α → JVal → α) (init : α) : JArr → α
  | .nil => init
  | .cons x xs => JArr.foldl f (f init x) xs

/-- Go map indexing `m[k]`: `none` when the key is absent. -/
def JObj.lookup (k : String) : JObj → Option JVal
  | .nil => none
  | .cons k' v tl => if k' == k then some v else JObj.lookup k tl

/-- Go `time.Time`, as nanoseconds since the Go zero time
(January 1, year 1, 00:00:00 UTC).  The Go zero value is `0`. -/
abbrev GoTime := Int

/-- Go `Time.IsZero`. -/
def GoTime.isZero (t : GoTime) : Bool := t == 0

/-- Go `t.After u`. -/
def GoTime.after (t u : GoTime) : Bool := decide (u < t)

/-- Go `t.Before u`. -/
def GoTime.before (t u : GoTime) : Bool := decide (t < u)

def digitsToNat (l : List Char) : Nat :=
  l.foldl (fun acc c => acc * 10 + (c.toNat - 48)) 0

def isLeapYear (y : Nat) : Bool :=
  y % 4 == 0 && (y % 100 != 0 || y % 400 == 0)

def daysInMonth (y m : Nat) : Nat :=
  if m == 2 then (if isLeapYear y then 29 else 28)
  else if m == 4 || m == 6 || m == 9 || m == 11 then 30
  else 31

def daysBeforeMonth (y m : Nat) : Nat :=
  (List.range (m - 1)).foldl (fun acc i => acc + daysInMonth y (i + 1)) 0

/-- Days between January 1 of year 1 and the given civil date (year ≥ 1). -/
def daysSinceYearOne (y m d : Nat) : Nat :=
  let py := y - 1
  365 * py + py / 4 - py / 100 + py / 400 + daysBeforeMonth y m + (d - 1)

/-- Nanoseconds denoted by the fractional-second digits (Go keeps at most
nanosecond precision). -/
def nanosOfFrac (ds : List Char) : Nat :=
  let kept := ds.take 9
  digitsToNat kept * 10 ^ (9 - kept.length)

/-- Parse an optional fractional-second part; Go `time.RFC3339Nano`. -/
def parseFracPart : List Char → Option (Nat × List Char)
  | '.' :: rest =>
    let ds := rest.takeWhile (·.isDigit)
    if ds.isEmpty then none
    else some (nanosOfFrac ds, rest.drop ds.length)
  | rest => some (0, rest)

/-- Parse the RFC3339 zone part: `Z` or `±HH:MM`, as seconds east of UTC. -/
def parseZonePart : List Char → Option Int
  | ['Z'] => some 0
  | [sign, a, b, ':', c, d] =>
    if (sign == '+' || sign == '-') && [a, b, c, d].all (·.isDigit) then
      let oh := digitsToNat [a, b]
      let om := digitsToNat [c, d]
      if oh ≤ 23 && om ≤ 59 then
        let secs : Int := ((oh * 3600 + om * 60 : Nat) : Int)
        some (if sign == '+' then secs else -secs)
      else none
    else none
  | _ => none

/-- Parse an RFC3339 / RFC3339Nano timestamp into nanoseconds since the Go
zero time; `none` on any malformed or out-of-range component. -/
def parseTsChars : List Char → Option Int
  | y1 :: y2 :: y3 :: y4 :: '-' :: m1 :: m2 :: '-' :: d1 :: d2 :: 'T' ::
      h1 :: h2 :: ':' :: n1 :: n2 :: ':' :: s1 :: s2 :: rest =>
    if [y1, y2, y3, y4, m1, m2, d1, d2, h1, h2, n1, n2, s1, s2].all (·.isDigit) then
      let y := digitsToNat [y1, y2, y3, y4]
      let mo := digitsToNat [m1, m2]
      let da := digitsToNat [d1, d2]
      let ho := digitsToNat [h1, h2]
      let mi := digitsToNat [n1, n2]
      let se := digitsToNat [s1, s2]
      if 1 ≤ y && 1 ≤ mo && mo ≤ 12 && 1 ≤ da && da ≤ daysInMonth y mo &&
          ho ≤ 23 && mi ≤ 59 && se ≤ 59 then
        match parseFracPart rest with
        | none => none
        | some (nanos, rest') =>
          match parseZonePart rest' with
          | none => none
          | some off =>
            some ((((daysSinceYearOne y mo da : Int) * 86400 +
              ((ho * 3600 + mi * 60 + se : Nat) : Int)) - off) * 1000000000 +
              (nanos : Int))
      else none
    else none
  | _ => none

/-- Go `parseTimestamp`: `time.Parse(RFC3339Nano, s)` with fallback to
RFC3339; parse failure yields the zero time. -/
def parseTimestamp (s : String) : GoTime :=
  match parseTsChars s.data with
  | some t => t
  | none => 0

/-- Whitespace as trimmed by Go `strings.TrimSpace` (ASCII part). -/
def goIsSpace (c : Char) : Bool :=
  c == ' ' || c == '\t' || c == '\n' || c == '\r' || c == '\x0b' || c == '\x0c'

/-- Go `strings.TrimSpace`. -/
def goTrimSpace (s : String) : String :=
  ⟨((s.data.dropWhile goIsSpace).reverse.dropWhile goIsSpace).reverse⟩

/-- Go `strings.HasPrefix s pre`. -/
def goStartsWith (s pre : String) : Bool :=
  s.data.take pre.data.length == pre.data

/-- Go `strings.TrimSuffix s suf`. -/
def goTrimSuffix (s suf : String) : String :=
  if s.data.reverse.take suf.data.length == suf.data.reverse then
    ⟨s.data.take (s.data.length - suf.data.length)⟩
  else s

/-- Go `strings.ReplaceAll s "-" "/"` (single-character pattern). -/
def goReplaceDashSlash (s : String) : String :=
  ⟨s.data.map fun c => if c == '-' then '/' else c⟩

/-- Go `filepath.Base` on a slash-separated path, over characters:
strip trailing slashes, then keep everything after the last slash;
`"."` for the empty path, `"/"` when the path is all slashes. -/
def goBaseChars (l : List Char) : List Char :=
  if l.isEmpty then ['.']
  else
    let t := (l.reverse.dropWhile (· == '/')).reverse
    if t.isEmpty then ['/']
    else (t.reverse.takeWhile (· != '/')).reverse

def goBase (s : String) : String := ⟨goBaseChars s.data⟩

/-- Split a character list on a separator character. -/
def splitCharAux (c : Char) : List Char → List Char → List (List Char)
  | [], acc => [acc.reverse]
  | x :: xs, acc =>
    if x == c then acc.reverse :: splitCharAux c xs []
    else splitCharAux c xs (x :: acc)

def splitChar (c : Char) (l : List Char) : List (List Char) :=
  splitCharAux c l []

/-- Segment processing of Go `path.Clean`: drop empty and `.` segments,
let `..` pop a previous real segment (or vanish at the root, or accumulate
when relative).  The accumulator holds processed segments in reverse. -/
def cleanStack (rooted : Bool) : List (List Char) → List (List Char) → List (List Char)
  | stack, [] => stack.reverse
  | stack, seg :: rest =>
    if seg.isEmpty || seg == ['.'] then cleanStack rooted stack rest
    else if seg == ['.', '.'] then
      match stack with
      | top :: stack' =>
        if top == ['.', '.'] then cleanStack rooted (seg :: top :: stack') rest
        else cleanStack rooted stack' rest
      | [] => if rooted then cleanStack rooted [] rest else cleanStack rooted [seg] rest
    else cleanStack rooted (seg :: stack) rest

def joinSegs : List (List Char) → List Char
  | [] => []
  | [s] => s
  | s :: rest => s ++ '/' :: joinSegs rest

/-- Go `filepath.Clean` (Unix), via the standard segment-stack rendering of
its lexical algorithm. -/
def goClean (s : String) : String :=
  if s.isEmpty then "."
  else
    let rooted := s.data.take 1 == ['/']
    let body := joinSegs (cleanStack rooted [] (splitChar '/' s.data))
    if rooted then ⟨'/' :: body⟩
    else if body.isEmpty then "." else ⟨body⟩

/-- Go `filepath.Dir`: everything up to and including the final slash,
cleaned; `"."` when there is no slash. -/
def goDir (s : String) : String :=
  goClean ⟨(s.data.reverse.dropWhile (· != '/')).reverse⟩

/-- Go type assertion `v.(string)` with `ok` result. -/
def asString : Option JVal → Option String
  | some (.jstr s) => some s
  | _ => none

/-- Go `v.(string)` discarding `ok` (zero value `""` on failure). -/
def strOr (v : Option JVal) : String := (asString v).getD ""

/-- Go `v.(bool)` discarding `ok` (zero value `false` on failure). -/
def boolOr : Option JVal → Bool
  | some (.jbool b) => b
  | _ => false

/-- Go `v.(map of string to interface)` discarding `ok` (`nil` map, here the
empty object, on failure). -/
def objOr : Option JVal → JObj
  | some (.jobj kvs) => kvs
  | _ => .nil

mutual
/-- Go `json.Marshal` of a decoded value, modeled as a deterministic
serialization (its exact text matters to no claim; only its determinism
does). -/
def jsonStr : JVal → String
  | .jstr s => "\"" ++ s ++ "\""
  | .jnum l => l
  | .jbool b => if b then "true" else "false"
  | .jnull => "null"
  | .jarr xs => "[" ++ jsonStrArr xs ++ "]"
  | .jobj kvs => "\x7b" ++ jsonStrObj kvs ++ "\x7d"
def jsonStrArr : JArr → String
  | .nil => ""
  | .cons x .nil => jsonStr x
  | .cons x xs => jsonStr x ++ "," ++ jsonStrArr xs
def jsonStrObj : JObj → String
  | .nil => ""
  | .cons k v .nil => "\"" ++ k ++ "\":" ++ jsonStr v
  | .cons k v kvs => "\"" ++ k ++ "\":" ++ jsonStr v ++ "," ++ jsonStrObj kvs
end

/-- Go struct `rawUsage` (JSON tags `input_tokens` etc.). -/
structure rawUsage where
  InputTokens : Int := 0
  OutputTokens : Int := 0
  CacheCreationInputTokens : Int := 0
  CacheReadInputTokens : Int := 0
  deriving DecidableEq

/-- Go struct `rawCompactMetadata`. -/
structure rawCompactMetadata where
  Trigger : String := ""
  PreTokens : Int := 0
  deriving DecidableEq

/-- Go struct `rawMessage`.  `Content` is `interface\x7b\x7d` in the source:
a string for user prompts, an array for assistant messages. -/
structure rawMessage where
  Role : String := ""
  Content : JVal := .jnull
  Model : String := ""
  Usage : Option rawUsage := none
  ID : String := ""
  deriving DecidableEq

/-- Go struct `rawEntry`, one decoded JSONL line.  The Go field `Type` is
spelled `type` here (`Type` is reserved in Lean). -/
structure rawEntry where
  type : String := ""
  Subtype : String := ""
  UUID : String := ""
  ParentUUID : Option String := none
  SessionID : String := ""
  CWD : String := ""
  Timestamp : String := ""
  Version : String := ""
  GitBranch : String := ""
  Message : Option rawMessage := none
  Content : String := ""
  CompactMetadata : Option rawCompactMetadata := none
  IsCompactSummary : Bool := false
  deriving DecidableEq

/-- Go `EventType` constants. -/
inductive EventType where
  | EventUserPrompt
  | EventThinking
  | EventText
  | EventToolUse
  | EventToolResult
  | EventSystem
  | EventCompaction
  deriving DecidableEq

/-- Go struct `Event`.  The Go field `Type` is spelled `type` here. -/
structure Event where
  type : EventType
  Timestamp : GoTime := 0
  UUID : String := ""
  UserText : String := ""
  Text : String := ""
  Thinking : String := ""
  ToolName : String := ""
  ToolInput : JObj := .nil
  ToolID : String := ""
  ToolOutput : String := ""
  IsError : Bool := false
  CompactPreTokens : Int := 0
  CompactTrigger : String := ""
  InputTokens : Int := 0
  OutputTokens : Int := 0
  deriving DecidableEq

/-- Go struct `SessionInfo`.  `CostUSD` (`float64` in the source) is modeled
exactly over `Rat`. -/
structure SessionInfo where
  ID : String := ""
  ProjectDir : String := ""
  ProjectName : String := ""
  FilePath : String := ""
  StartTime : GoTime := 0
  LastUpdate : GoTime := 0
  InputTokens : Int := 0
  OutputTokens : Int := 0
  CacheReadTokens : Int := 0
  CacheWriteTokens : Int := 0
  CostUSD : Rat := 0
  EventCount : Int := 0
  ToolCallCount : Int := 0
  UserPrompts : Int := 0
  FilesRead : List String := []
  FilesWritten : List String := []
  FilesCreated : List String := []
  BashCommands : Int := 0
  Errors : Int := 0
  IsAgent : Bool := false
  Model : String := ""
  CWD : String := ""
  deriving DecidableEq

/-- Go struct `Session`. -/
structure Session where
  Info : SessionInfo
  Events : List Event
  deriving DecidableEq

/-- Events produced from one block of a `user` record payload
(`parseUserMessage`, per-block body). -/
def userBlockEvents (e : rawEntry) (ts : GoTime) (b : JVal) : List Event :=
  match b with
  | .jobj bMap =>
    let blockType := strOr (bMap.lookup "type")
    if blockType = "tool_result" then
      let output :=
        match bMap.lookup "content" with
        | some (.jstr c) => c
        | some (.jarr items) =>
          items.foldl (fun acc item =>
            match item with
            | .jobj itemMap =>
              match asString (itemMap.lookup "text") with
              | some t => acc ++ t
              | none => acc
            | _ => acc) ""
        | v => jsonStr (v.getD .jnull)
      [{ type := .EventToolResult, Timestamp := ts, UUID := e.UUID,
         ToolID := strOr (bMap.lookup "tool_use_id"),
         ToolOutput := output, IsError := boolOr (bMap.lookup "is_error") }]
    else if blockType = "text" then
      let text := strOr (bMap.lookup "text")
      if goTrimSpace text != "" then
        [{ type := .EventUserPrompt, Timestamp := ts, UUID := e.UUID,
           UserText := text }]
      else []
    else []
  | _ => []

/-- Go `parseUserMessage`. -/
def parseUserMessage (e : rawEntry) (ts : GoTime) : List Event :=
  match e.Message with
  | none => []
  | some msg =>
    match msg.Content with
    | .jstr content =>
      if goTrimSpace content != "" then
        [{ type := .EventUserPrompt, Timestamp := ts, UUID := e.UUID,
           UserText := content }]
      else []
    | .jarr blocks => blocks.foldl (fun evs b => evs ++ userBlockEvents e ts b) []
    | _ => []

/-- Events produced from one block of an `assistant` record payload
(`parseAssistantMessage`, per-block body). -/
def assistantBlockEvents (e : rawEntry) (ts : GoTime) (inTok outTok : Int)
    (b : JVal) : List Event :=
  match b with
  | .jobj bMap =>
    let blockType := strOr (bMap.lookup "type")
    if blockType = "thinking" then
      let thinking := strOr (bMap.lookup "thinking")
      if goTrimSpace thinking != "" then
        [{ type := .EventThinking, Timestamp := ts, UUID := e.UUID,
           Thinking := thinking, InputTokens := inTok, OutputTokens := outTok }]
      else []
    else if blockType = "text" then
      let text := strOr (bMap.lookup "text")
      if goTrimSpace text != "" then
        [{ type := .EventText, Timestamp := ts, UUID := e.UUID,
           Text := text, InputTokens := inTok, OutputTokens := outTok }]
      else []
    else if blockType = "tool_use" then
      [{ type := .EventToolUse, Timestamp := ts, UUID := e.UUID,
         ToolName := strOr (bMap.lookup "name"),
         ToolInput := objOr (bMap.lookup "input"),
         ToolID := strOr (bMap.lookup "id"),
         InputTokens := inTok, OutputTokens := outTok }]
    else []
  | _ => []

/-- Go `parseAssistantMessage`. -/
def parseAssistantMessage (e : rawEntry) (ts : GoTime) : List Event :=
  match e.Message with
  | none => []
  | some msg =>
    match msg.Content with
    | .jarr contentArr =>
      let inTok := match msg.Usage with | some u => u.InputTokens | none => 0
      let outTok := match msg.Usage with | some u => u.OutputTokens | none => 0
      contentArr.foldl (fun evs b => evs ++ assistantBlockEvents e ts inTok outTok b) []
    | _ => []

/-- Go local struct `assistantGroup` of `ParseSessionFile`. -/
structure assistantGroup where
  entry : rawEntry
  timestamp : GoTime
  deriving DecidableEq

/-- The Go map `assistantMessages : map of string to assistantGroup`, as an
association list (only lookup and assignment are performed on it; its
iteration order is never observed). -/
abbrev ResolveMap := List (String × assistantGroup)

def lookupGroup (m : ResolveMap) (id : String) : Option assistantGroup :=
  match m.find? (fun p => p.1 == id) with
  | some p => some p.2
  | none => none

/-- Go map assignment `m[id] = g`. -/
def updateGroup : ResolveMap → String → assistantGroup → ResolveMap
  | [], id, g => [(id, g)]
  | p :: rest, id, g =>
    if p.1 = id then (id, g) :: rest else p :: updateGroup rest id g

/-- One step of the first pass of `ParseSessionFile`: record an assistant
revision, replacing the stored candidate only on a strictly later
timestamp. -/
def resolveStep (m : ResolveMap) (e : rawEntry) : ResolveMap :=
  if e.type = "assistant" then
    match e.Message with
    | some msg =>
      if msg.ID ≠ "" then
        let ts := parseTimestamp e.Timestamp
        match lookupGroup m msg.ID with
        | none => updateGroup m msg.ID ⟨e, ts⟩
        | some existing =>
          if ts.after existing.timestamp then updateGroup m msg.ID ⟨e, ts⟩ else m
      else m
    | none => m
  else m

/-- The first pass of `ParseSessionFile` over all decoded entries. -/
def resolve (es : List rawEntry) : ResolveMap := es.foldl resolveStep []

/-- CWD capture of the first pass: the `CWD` of the first entry carrying
one. -/
def firstCWD (es : List rawEntry) : String :=
  match es.find? (fun e => e.CWD != "") with
  | some e => e.CWD
  | none => ""

/-- Model capture of the first pass (inside the assistant branch): the model
name of the first assistant entry with a message, a non-empty message ID and
a non-empty model. -/
def modelOf (e : rawEntry) : Option String :=
  if e.type = "assistant" then
    match e.Message with
    | some msg => if msg.ID ≠ "" ∧ msg.Model ≠ "" then some msg.Model else none
    | none => none
  else none

def firstModel (es : List rawEntry) : String := (es.findSome? modelOf).getD ""

/-- Go set insertion `m[k] = true` on a `map of string to bool`, modeled as an
insertion-ordered duplicate-free key list. -/
def insertKey (l : List String) (k : String) : List String :=
  if l.contains k then l else l ++ [k]

/-- The mutable state of the second pass of `ParseSessionFile`: the fields of
`sess.Info` written during the loop, the growing `sess.Events`, the
`seenMessageIDs` set and the three file-path sets. -/
structure BuildState where
  StartTime : GoTime := 0
  LastUpdate : GoTime := 0
  Events : List Event := []
  seen : List String := []
  UserPrompts : Int := 0
  Errors : Int := 0
  ToolCallCount : Int := 0
  BashCommands : Int := 0
  filesRead : List String := []
  filesWritten : List String := []
  filesCreated : List String := []
  InputTokens : Int := 0
  OutputTokens : Int := 0
  CacheReadTokens : Int := 0
  CacheWriteTokens : Int := 0
  deriving DecidableEq

/-- The StartTime/LastUpdate update performed for every entry of the second
pass. -/
def updateTimes (s : BuildState) (ts : GoTime) : BuildState :=
  let s :=
    if s.StartTime.isZero || (!ts.isZero && ts.before s.StartTime) then
      { s with StartTime := ts }
    else s
  if ts.after s.LastUpdate then { s with LastUpdate := ts } else s

/-- The per-event counting loop of the `user` branch. -/
def countUserEvent (s : BuildState) (ev : Event) : BuildState :=
  let s :=
    if ev.type = .EventUserPrompt then { s with UserPrompts := s.UserPrompts + 1 }
    else s
  if ev.type = .EventToolResult ∧ ev.IsError then { s with Errors := s.Errors + 1 }
  else s

/-- The per-event tool/file tracking loop of the `assistant` branch. -/
def trackEvent (s : BuildState) (ev : Event) : BuildState :=
  if ev.type = .EventToolUse then
    let s := { s with ToolCallCount := s.ToolCallCount + 1 }
    if ev.ToolName = "Read" then
      match asString (ev.ToolInput.lookup "file_path") with
      | some fp => { s with filesRead := insertKey s.filesRead fp }
      | none => s
    else if ev.ToolName = "Write" then
      match asString (ev.ToolInput.lookup "file_path") with
      | some fp => { s with filesCreated := insertKey s.filesCreated fp }
      | none => s
    else if ev.ToolName = "Edit" then
      match asString (ev.ToolInput.lookup "file_path") with
      | some fp => { s with filesWritten := insertKey s.filesWritten fp }
      | none => s
    else if ev.ToolName = "Bash" then { s with BashCommands := s.BashCommands + 1 }
    else s
  else s

/-- Token accumulation from the authoritative record of an emitted assistant
message (`final.entry.Message.Usage`). -/
def addUsage (s : BuildState) (g : assistantGroup) : BuildState :=
  match g.entry.Message with
  | some msg =>
    match msg.Usage with
    | some u =>
      { s with
        InputTokens := s.InputTokens + u.InputTokens,
        OutputTokens := s.OutputTokens + u.OutputTokens,
        CacheReadTokens := s.CacheReadTokens + u.CacheReadInputTokens,
        CacheWriteTokens := s.CacheWriteTokens + u.CacheCreationInputTokens }
    | none => s
  | none => s

/-- The emission body of the `assistant` branch: mark the ID seen, append the
events of the authoritative record, track tools/files, accumulate usage. -/
def assistantEmit (s : BuildState) (id : String) (g : assistantGroup)
    (ts : GoTime) : BuildState :=
  let s := { s with seen := s.seen ++ [id] }
  let events := parseAssistantMessage g.entry ts
  let s := { s with Events := s.Events ++ events }
  let s := events.foldl trackEvent s
  addUsage s g

/-- The compaction event built by the `system` branch. -/
def compactionEvent (e : rawEntry) (ts : GoTime) : Event :=
  let preTokens := match e.CompactMetadata with | some md => md.PreTokens | none => 0
  let trigger := match e.CompactMetadata with | some md => md.Trigger | none => ""
  { type := .EventCompaction, Timestamp := ts, UUID := e.UUID,
    CompactPreTokens := preTokens, CompactTrigger := trigger }

/-- The guard chain of the `assistant` branch of the second pass: the entry
emits (yielding its message ID and the authoritative group) exactly when it
is an assistant entry with a message and a non-empty ID that has not been
emitted yet, the resolved map holds a group for that ID, and the entry
carries the UUID of the authoritative record.  Each `none` corresponds to
one `continue` of the source. -/
def firingOf (m : ResolveMap) (seen : List String) (e : rawEntry) :
    Option (String × assistantGroup) :=
  if e.type = "assistant" then
    match e.Message with
    | none => none
    | some msg =>
      if msg.ID = "" then none
      else if seen.contains msg.ID then none
      else
        match lookupGroup m msg.ID with
        | none => none
        | some g => if e.UUID = g.entry.UUID then some (msg.ID, g) else none
  else none

/-- The switch on the entry kind in the loop body of the second pass,
applied after the StartTime/LastUpdate update. -/
def buildCore (m : ResolveMap) (s : BuildState) (e : rawEntry) : BuildState :=
  let ts := parseTimestamp e.Timestamp
  if e.type = "system" then
    if e.Subtype = "compact_boundary" then
      { s with Events := s.Events ++ [compactionEvent e ts] }
    else s
  else if e.type = "user" then
    match e.Message with
    | none => s
    | some _ =>
      if e.IsCompactSummary then s
      else
        let events := parseUserMessage e ts
        let s := { s with Events := s.Events ++ events }
        events.foldl countUserEvent s
  else if e.type = "assistant" then
    match firingOf m s.seen e with
    | none => s
    | some (id, g) => assistantEmit s id g ts
  else s

/-- One step of the second pass of `ParseSessionFile` (the event-building
loop body), with the resolved map `m` fixed by the first pass: the
StartTime/LastUpdate update followed by the switch on the entry kind. -/
def buildStep (m : ResolveMap) (s : BuildState) (e : rawEntry) : BuildState :=
  buildCore m (updateTimes s (parseTimestamp e.Timestamp)) e

/-- One line of the input file, at the decode boundary: a zero-length line
(skipped), a line on which `json.Unmarshal` fails (skipped), a line
exceeding the 10MB scanner buffer — on such a line `bufio.Scanner.Scan`
returns false with `ErrTooLong`, which the source never inspects, so the
scan loop simply ends — or a line decoding to a `rawEntry`. -/
inductive Line where
  | empty
  | malformed
  | tooLong
  | entry (e : rawEntry)
  deriving DecidableEq

/-- The `allEntries` slice accumulated by the scan loop: every line that
decoded successfully, in file order, up to but not beyond the first
over-long line.  At an over-long line the scanner stops delivering lines
(`Scan` returns false, `scanner.Err` is never checked), and the function
falls through to event building with the entries seen so far. -/
def decodedEntries : List Line → List rawEntry
  | [] => []
  | .entry e :: ls => e :: decodedEntries ls
  | .tooLong :: _ => []
  | .empty :: ls => decodedEntries ls
  | .malformed :: ls => decodedEntries ls

/-- Go `estimateCost`: Opus pricing, 15 and 75 dollars per million tokens of
input and output, 1.5 per million cache-read, 18.75 per million
cache-write. -/
def estimateCost (input output cacheRead cacheWrite : Int) : Rat :=
  (input : Rat) * (15 / 1000000) + (output : Rat) * (75 / 1000000) +
  (cacheRead : Rat) * (3 / 2000000) + (cacheWrite : Rat) * (75 / 4000000)

/-- Go `ParseSessionFile`, as a function of the file path and the decoded
lines of the file content.  `ord` models the unspecified iteration order of
the three Go file-path maps when they are converted to slices at the end: a
run of the program corresponds to some key permutation `ord`.  Everything
else is a function of path and content alone. -/
def ParseSessionFile (path : String) (lines : List Line)
    (ord : List String → List String) : Session :=
  let basename := goBase path
  let sessionID := goTrimSuffix basename ".jsonl"
  let isAgent := goStartsWith basename "agent-"
  let dirName := goBase (goDir path)
  let projectDir := goReplaceDashSlash dirName
  let projectName := goBase projectDir
  let es := decodedEntries lines
  let m := resolve es
  let b := List.foldl (buildStep m) {} es
  { Info :=
    { ID := sessionID, ProjectDir := projectDir, ProjectName := projectName,
      FilePath := path, IsAgent := isAgent,
      CWD := firstCWD es, Model := firstModel es,
      StartTime := b.StartTime, LastUpdate := b.LastUpdate,
      InputTokens := b.InputTokens, OutputTokens := b.OutputTokens,
      CacheReadTokens := b.CacheReadTokens, CacheWriteTokens := b.CacheWriteTokens,
      CostUSD := estimateCost b.InputTokens b.OutputTokens b.CacheReadTokens
        b.CacheWriteTokens,
      EventCount := (b.Events.length : Int),
      ToolCallCount := b.ToolCallCount, UserPrompts := b.UserPrompts,
      BashCommands := b.BashCommands, Errors := b.Errors,
      FilesRead := ord b.filesRead, FilesWritten := ord b.filesWritten,
      FilesCreated := ord b.filesCreated },
    Events := b.Events }

/-- The `Store.sessions` map (keyed by session ID), as an association list. -/
abbrev StoreMap := List (String × Session)

/-- Go map assignment `s.sessions[id] = sess`. -/
def storePut : StoreMap → String → Session → StoreMap
  | [], id, sess => [(id, sess)]
  | p :: rest, id, sess =>
    if p.1 = id then (id, sess) :: rest else p :: storePut rest id sess

/-- Go `Store.GetSession`. -/
def storeGet (m : StoreMap) (id : String) : Option Session :=
  match m.find? (fun p => p.1 == id) with
  | some p => some p.2
  | none => none

/-- One discovered `.jsonl` file: its full path and its content, `none` when
`ParseSessionFile` fails to open it. -/
structure ScanFile where
  path : String
  content : Option (List Line)

/-- The per-file body of `Store.Scan`: skip unreadable files, skip files
whose parse yields zero events, insert everything else. -/
def scanStep (ord : List String → List String) (m : StoreMap) (f : ScanFile) :
    StoreMap :=
  match f.content with
  | none => m
  | some lines =>
    let sess := ParseSessionFile f.path lines ord
    if sess.Events.length = 0 then m else storePut m sess.Info.ID sess

/-- Go `Store.Scan` over the discovered files, starting from the current
map. -/
def storeScan (ord : List String → List String) (m : StoreMap)
    (files : List ScanFile) : StoreMap :=
  files.foldl (scanStep ord) m

/-- The debounced re-parse action of `Store.Watch`: parse the changed file,
discard the result on error or when it has zero events, otherwise insert. -/
def watchReparse (ord : List String → List String) (m : StoreMap)
    (f : ScanFile) : StoreMap :=
  match f.content with
  | none => m
  | some lines =>
    let sess := ParseSessionFile f.path lines ord
    if sess.Events.length = 0 then m else storePut m sess.Info.ID sess

/-- A store state reachable by an initial scan followed by any sequence of
watcher re-parses, starting from the empty map of `NewStore`. -/
def storeAfter (ord : List String → List String) (files ws : List ScanFile) :
    StoreMap :=
  ws.foldl (watchReparse ord) (storeScan ord [] files)

/-- Descending insertion by `LastUpdate` (Go `sort.Slice` with
`infos[i].LastUpdate.After(infos[j].LastUpdate)`; the sort order is modeled
by insertion sort — `sort.Slice` fixes no tie order). -/
def insertByLastUpdate (x : SessionInfo) : List SessionInfo → List SessionInfo
  | [] => [x]
  | y :: ys =>
    if x.LastUpdate.after y.LastUpdate then x :: y :: ys
    else y :: insertByLastUpdate x ys

/-- Go `Store.GetSessions`: all infos, sorted by last update, newest
first. -/
def GetSessions (m : StoreMap) : List SessionInfo :=
  (m.map (fun p => p.2.Info)).foldr insertByLastUpdate []

/-! ### Derived views of the parse, used to state the claims -/

/-- The parsed timestamp of an entry. -/
def tsOf (e : rawEntry) : GoTime := parseTimestamp e.Timestamp

/-- The events emitted by one step of the second pass, as a function of the
seen-set before the step. -/
def stepEvents (m : ResolveMap) (seen : List String) (e : rawEntry) : List Event :=
  let ts := parseTimestamp e.Timestamp
  if e.type = "system" then
    if e.Subtype = "compact_boundary" then [compactionEvent e ts] else []
  else if e.type = "user" then
    match e.Message with
    | none => []
    | some _ => if e.IsCompactSummary then [] else parseUserMessage e ts
  else if e.type = "assistant" then
    match firingOf m seen e with
    | none => []
    | some (_, g) => parseAssistantMessage g.entry ts
  else []

/-- The seen-set after one step of the second pass. -/
def seenStep (m : ResolveMap) (seen : List String) (e : rawEntry) : List String :=
  match firingOf m seen e with
  | none => seen
  | some (id, _) => seen ++ [id]

/-- The usage block of the authoritative record held by a group (zero when
absent). -/
def usageOf (g : assistantGroup) : rawUsage :=
  match g.entry.Message with
  | some msg => match msg.Usage with | some u => u | none => {}
  | none => {}

/-- The usage accumulated by one step of the second pass. -/
def stepUsage (m : ResolveMap) (seen : List String) (e : rawEntry) : rawUsage :=
  match firingOf m seen e with
  | none => {}
  | some (_, g) => usageOf g

/-- The usage carried by the authoritative record of a message ID. -/
def authUsage (m : ResolveMap) (id : String) : rawUsage :=
  match lookupGroup m id with
  | some g => usageOf g
  | none => {}

/-- The usage contributed by one slot of the emission trace. -/
def traceUsage (m : ResolveMap) : Option String → rawUsage
  | some id => authUsage m id
  | none => {}

/-- The per-entry event blocks of the whole second pass, in file order. -/
def eventTrace (m : ResolveMap) (seen : List String) : List rawEntry → List (List Event)
  | [] => []
  | e :: es => stepEvents m seen e :: eventTrace m (seenStep m seen e) es

/-- The per-entry emissions of the whole second pass: the message ID emitted
at each entry, if any. -/
def emitTrace (m : ResolveMap) (seen : List String) : List rawEntry → List (Option String)
  | [] => []
  | e :: es => (firingOf m seen e).map (fun p => p.1) :: emitTrace m (seenStep m seen e) es

/-- The distinct non-empty assistant message identifiers occurring in a
file, in order of first occurrence. -/
def assistantIds (es : List rawEntry) : List String :=
  (es.filterMap fun e =>
    if e.type = "assistant" then
      match e.Message with
      | some msg => if msg.ID = "" then none else some msg.ID
      | none => none
    else none).dedup

/-- Whether an entry is an assistant raw record carrying message ID `id`. -/
def isRevisionOf (id : String) (e : rawEntry) : Bool :=
  e.type == "assistant" &&
    (match e.Message with | some msg => msg.ID == id | none => false)

/-- All assistant raw records of a file carrying message ID `id`, in file
order. -/
def revisions (es : List rawEntry) (id : String) : List rawEntry :=
  es.filter (isRevisionOf id)

/-- Whether `e` has the (weakly) greatest parsed timestamp in `l`. -/
def maxIn (l : List rawEntry) (e : rawEntry) : Bool :=
  l.all fun e' => decide (tsOf e' ≤ tsOf e)

/-- The first element of `l` attaining the maximum parsed timestamp. -/
def firstMax (l : List rawEntry) : Option rawEntry := l.find? (maxIn l)

/-- The earliest-in-file record attaining the greatest timestamp among the
revisions of `id` — what the code actually retains. -/
def firstMaxRevision (es : List rawEntry) (id : String) : Option rawEntry :=
  firstMax (revisions es id)

/-- The latest-in-file record attaining the greatest timestamp among the
revisions of `id` — what the claimed tie-break (later record wins on equal
timestamps) would retain. -/
def lastMaxRevision (es : List rawEntry) (id : String) : Option rawEntry :=
  (revisions es id).reverse.find? (maxIn (revisions es id))

/-- Helper: left-to-right selection keeping the incumbent unless a strictly
later timestamp arrives. -/
def pick (b : rawEntry) : List rawEntry → rawEntry
  | [] => b
  | e :: l => if tsOf b < tsOf e then pick e l else pick b l

/-- The one-key view of `resolveStep`: keep the incumbent group unless the
new revision has a strictly greater timestamp. -/
def updOne (acc : Option assistantGroup) (e : rawEntry) : Option assistantGroup :=
  match acc with
  | none => some ⟨e, tsOf e⟩
  | some ex => if (tsOf e).after ex.timestamp then some ⟨e, tsOf e⟩ else some ex

/-- An entry that passes the emission guard of the second pass apart from
the seen-set check: an assistant entry carrying message ID `id` (non-empty)
whose UUID is the UUID of the authoritative record for `id`. -/
def matchesAuth (m : ResolveMap) (id : String) (e : rawEntry) : Prop :=
  e.type = "assistant" ∧ id ≠ "" ∧
    (∃ msg, e.Message = some msg ∧ msg.ID = id) ∧
    (∃ g, lookupGroup m id = some g ∧ e.UUID = g.entry.UUID)

/-- The spec-side reading of "the last slash-separated component" of a
string: its longest suffix containing no slash. -/
def lastSlashComponent (s : String) : String :=
  ⟨(s.data.reverse.takeWhile (· != '/')).reverse⟩

/-- Store sanity: every stored session has at least one event and an event
count equal to the length of its event list. -/
def storeWF (m : StoreMap) : Prop :=
  ∀ p ∈ m, (p : String × Session).2.Events ≠ [] ∧
    p.2.Info.EventCount = (p.2.Events.length : Int)

/-! ### Concrete inputs used by witnesses and counterexamples -/

/-- The identity slice order. -/
def idOrd : List String → List String := fun l => l

/-- The reversed slice order (Go map iteration order is unspecified, so any
permutation can occur on a given run). -/
def revOrd : List String → List String := fun l => l.reverse

def exA1msg : rawMessage :=
  { Role := "assistant", ID := "m1",
    Content := .jarr (.cons (.jobj (.cons "type" (.jstr "tool_use")
      (.cons "name" (.jstr "Bash")
      (.cons "id" (.jstr "t1")
      (.cons "input" (.jobj (.cons "command" (.jstr "ls") .nil)) .nil))))) .nil),
    Usage := some { InputTokens := 10, OutputTokens := 5 } }

def exU2msg : rawMessage :=
  { Role := "user",
    Content := .jarr (.cons (.jobj (.cons "type" (.jstr "tool_result")
      (.cons "tool_use_id" (.jstr "t1")
      (.cons "content" (.jstr "file.txt")
      (.cons "is_error" (.jbool false) .nil))))) .nil) }

/-- A user prompt record. -/
def exU1 : rawEntry :=
  { type := "user", UUID := "uu1", Timestamp := "2021-01-01T00:00:01Z",
    Message := some { Role := "user", Content := .jstr "hi" } }

/-- An assistant record with one Bash tool use and usage 10 in, 5 out. -/
def exA1 : rawEntry :=
  { type := "assistant", UUID := "ua1", Timestamp := "2021-01-01T00:00:02Z",
    Message := some exA1msg }

/-- A user tool-result record answering the Bash call. -/
def exU2 : rawEntry :=
  { type := "user", UUID := "uu2", Timestamp := "2021-01-01T00:00:03Z",
    Message := some exU2msg }

/-- An assistant message reading file "a" and file "b" (two Read tool
uses). -/
def exReadMsg : rawMessage :=
  { Role := "assistant", ID := "m2",
    Content := .jarr (.cons (.jobj (.cons "type" (.jstr "tool_use")
      (.cons "name" (.jstr "Read")
      (.cons "id" (.jstr "t2")
      (.cons "input" (.jobj (.cons "file_path" (.jstr "a") .nil)) .nil)))))
      (.cons (.jobj (.cons "type" (.jstr "tool_use")
      (.cons "name" (.jstr "Read")
      (.cons "id" (.jstr "t3")
      (.cons "input" (.jobj (.cons "file_path" (.jstr "b") .nil)) .nil))))) .nil)) }

def exA2 : rawEntry :=
  { type := "assistant", UUID := "ua2", Timestamp := "2021-01-01T00:00:04Z",
    Message := some exReadMsg }

/-- Two system compaction records with decreasing timestamps. -/
def exSysLate : rawEntry :=
  { type := "system", Subtype := "compact_boundary", UUID := "us1",
    Timestamp := "2021-01-01T00:00:02Z" }

def exSysEarly : rawEntry :=
  { type := "system", Subtype := "compact_boundary", UUID := "us2",
    Timestamp := "2021-01-01T00:00:01Z" }

/-- Two assistant revisions of message "m1" with equal timestamps and
different UUIDs and payloads. -/
def exRev1 : rawEntry :=
  { type := "assistant", UUID := "ur1", Timestamp := "2021-01-01T00:00:05Z",
    Message := some { Role := "assistant", ID := "m1", Content := .jstr "v1" } }

def exRev2 : rawEntry :=
  { type := "assistant", UUID := "ur2", Timestamp := "2021-01-01T00:00:05Z",
    Message := some { Role := "assistant", ID := "m1", Content := .jstr "v2" } }

/-- A user record flagged as an injected compact summary. -/
def exCompactSummary : rawEntry :=
  { type := "user", UUID := "uc1", Timestamp := "2021-01-01T00:00:06Z",
    IsCompactSummary := true,
    Message := some { Role := "user", Content := .jstr "summary text" } }

/-- A discovered directory holding one session file with three events and
one session file with no events. -/
def exScanFiles : List ScanFile :=
  [⟨"/root/.claude/projects/-root-proj/abc.jsonl",
      some [.entry exU1, .entry exA1, .entry exU2]⟩,
   ⟨"/root/.claude/projects/-root-proj/em.jsonl", some []⟩]

/-- An assistant message with an empty ID but non-zero usage. -/
def exNoIdMsg : rawMessage :=
  { Role := "assistant", ID := "", Content := .jstr "x",
    Usage := some { InputTokens := 99, OutputTokens := 98 } }

/-- An assistant record whose message has an empty ID. -/
def exNoId : rawEntry :=
  { type := "assistant", UUID := "un1", Timestamp := "2021-01-01T00:00:07Z",
    Message := some exNoIdMsg }

/-! ### Projection lemmas for the build step -/

theorem foldl_proj {α β γ : Type} (proj : β → γ) (f : β → α → β)
    (hf : ∀ s a, proj (f s a) = proj s) :
    ∀ (l : List α) (s : β), proj (l.foldl f s) = proj s
  | [], _ => rfl
  | a :: l, s => by
    rw [List.foldl_cons, foldl_proj proj f hf l (f s a), hf]

theorem updateTimes_eq (s : BuildState) (ts : GoTime) :
    updateTimes s ts = { s with
      StartTime := if s.StartTime.isZero || (!ts.isZero && ts.before s.StartTime)
        then ts else s.StartTime,
      LastUpdate := if ts.after s.LastUpdate then ts else s.LastUpdate } := by
  unfold updateTimes
  split <;> split <;> simp_all

theorem countUserEvent_eq (s : BuildState) (ev : Event) :
    countUserEvent s ev = { s with
      UserPrompts := if ev.type = .EventUserPrompt then s.UserPrompts + 1
        else s.UserPrompts,
      Errors := if ev.type = .EventToolResult ∧ ev.IsError then s.Errors + 1
        else s.Errors } := by
  unfold countUserEvent
  split <;> split <;> simp_all

theorem addUsage_eq (s : BuildState) (g : assistantGroup) :
    addUsage s g = { s with
      InputTokens := s.InputTokens + (usageOf g).InputTokens,
      OutputTokens := s.OutputTokens + (usageOf g).OutputTokens,
      CacheReadTokens := s.CacheReadTokens + (usageOf g).CacheReadInputTokens,
      CacheWriteTokens := s.CacheWriteTokens + (usageOf g).CacheCreationInputTokens } := by
  unfold addUsage usageOf
  rcases hm : g.entry.Message with _ | msg
  · simp [hm]
  · rcases hu : msg.Usage with _ | u <;> simp [hm, hu]

theorem trackEvent_Events (s : BuildState) (ev : Event) :
    (trackEvent s ev).Events = s.Events := by
  unfold trackEvent; repeat' split
  all_goals rfl

theorem trackEvent_seen (s : BuildState) (ev : Event) :
    (trackEvent s ev).seen = s.seen := by
  unfold trackEvent; repeat' split
  all_goals rfl

theorem trackEvent_usage (s : BuildState) (ev : Event) :
    (trackEvent s ev).InputTokens = s.InputTokens ∧
    (trackEvent s ev).OutputTokens = s.OutputTokens ∧
    (trackEvent s ev).CacheReadTokens = s.CacheReadTokens ∧
    (trackEvent s ev).CacheWriteTokens = s.CacheWriteTokens := by
  unfold trackEvent; repeat' split
  all_goals exact ⟨rfl, rfl, rfl, rfl⟩

theorem trackEvent_times (s : BuildState) (ev : Event) :
    (trackEvent s ev).StartTime = s.StartTime ∧
    (trackEvent s ev).LastUpdate = s.LastUpdate := by
  unfold trackEvent; repeat' split
  all_goals exact ⟨rfl, rfl⟩

theorem assistantEmit_Events (s : BuildState) (id : String)
    (g : assistantGroup) (ts : GoTime) :
    (assistantEmit s id g ts).Events = s.Events ++ parseAssistantMessage g.entry ts := by
  unfold assistantEmit
  rw [addUsage_eq]
  simp [foldl_proj (BuildState.Events) trackEvent trackEvent_Events]

theorem assistantEmit_seen (s : BuildState) (id : String)
    (g : assistantGroup) (ts : GoTime) :
    (assistantEmit s id g ts).seen = s.seen ++ [id] := by
  unfold assistantEmit
  rw [addUsage_eq]
  simp [foldl_proj (BuildState.seen) trackEvent trackEvent_seen]

theorem assistantEmit_usage (s : BuildState) (id : String)
    (g : assistantGroup) (ts : GoTime) :
    (assistantEmit s id g ts).InputTokens = s.InputTokens + (usageOf g).InputTokens ∧
    (assistantEmit s id g ts).OutputTokens = s.OutputTokens + (usageOf g).OutputTokens ∧
    (assistantEmit s id g ts).CacheReadTokens
      = s.CacheReadTokens + (usageOf g).CacheReadInputTokens ∧
    (assistantEmit s id g ts).CacheWriteTokens
      = s.CacheWriteTokens + (usageOf g).CacheCreationInputTokens := by
  unfold assistantEmit
  rw [addUsage_eq]
  refine ⟨?_, ?_, ?_, ?_⟩ <;>
    simp [foldl_proj (BuildState.InputTokens) trackEvent
        (fun s ev => (trackEvent_usage s ev).1),
      foldl_proj (BuildState.OutputTokens) trackEvent
        (fun s ev => (trackEvent_usage s ev).2.1),
      foldl_proj (BuildState.CacheReadTokens) trackEvent
        (fun s ev => (trackEvent_usage s ev).2.2.1),
      foldl_proj (BuildState.CacheWriteTokens) trackEvent
        (fun s ev => (trackEvent_usage s ev).2.2.2)]

theorem assistantEmit_times (s : BuildState) (id : String)
    (g : assistantGroup) (ts : GoTime) :
    (assistantEmit s id g ts).StartTime = s.StartTime ∧
    (assistantEmit s id g ts).LastUpdate = s.LastUpdate := by
  unfold assistantEmit
  rw [addUsage_eq]
  constructor <;>
    simp [foldl_proj (BuildState.StartTime) trackEvent
        (fun s ev => (trackEvent_times s ev).1),
      foldl_proj (BuildState.LastUpdate) trackEvent
        (fun s ev => (trackEvent_times s ev).2)]

theorem buildCore_Events (m : ResolveMap) (s : BuildState) (e : rawEntry) :
    (buildCore m s e).Events = s.Events ++ stepEvents m s.seen e := by
  unfold buildCore stepEvents
  by_cases h1 : e.type = "system"
  · by_cases h2 : e.Subtype = "compact_boundary" <;> simp [h1, h2]
  · by_cases h2 : e.type = "user"
    · rcases hm : e.Message with _ | msg
      · simp [h1, h2, hm]
      · by_cases h3 : e.IsCompactSummary
        · simp [h1, h2, hm, h3]
        · simp [h1, h2, hm, h3,
            foldl_proj (BuildState.Events) countUserEvent
              (fun s ev => by rw [countUserEvent_eq])]
    · by_cases h3 : e.type = "assistant"
      · rcases hf : firingOf m s.seen e with _ | ⟨id, g⟩
        · simp [h1, h2, h3, hf]
        · simp [h1, h2, h3, hf, assistantEmit_Events]
      · simp [h1, h2, h3]

theorem buildCore_seen (m : ResolveMap) (s : BuildState) (e : rawEntry) :
    (buildCore m s e).seen = seenStep m s.seen e := by
  unfold buildCore seenStep
  by_cases h1 : e.type = "system"
  · have : firingOf m s.seen e = none := by unfold firingOf; simp [h1]
    by_cases h2 : e.Subtype = "compact_boundary" <;> simp [h1, h2, this]
  · by_cases h2 : e.type = "user"
    · have : firingOf m s.seen e = none := by unfold firingOf; simp [h1, h2]
      rcases hm : e.Message with _ | msg
      · simp [h1, h2, hm, this]
      · by_cases h3 : e.IsCompactSummary
        · simp [h1, h2, hm, h3, this]
        · simp [h1, h2, hm, h3, this,
            foldl_proj (BuildState.seen) countUserEvent
              (fun s ev => by rw [countUserEvent_eq])]
    · by_cases h3 : e.type = "assistant"
      · rcases hf : firingOf m s.seen e with _ | ⟨id, g⟩
        · simp [h1, h2, h3, hf]
        · simp [h1, h2, h3, hf, assistantEmit_seen]
      · have : firingOf m s.seen e = none := by unfold firingOf; simp [h3]
        simp [h1, h2, h3, this]

theorem buildCore_usage (m : ResolveMap) (s : BuildState) (e : rawEntry) :
    (buildCore m s e).InputTokens
      = s.InputTokens + (stepUsage m s.seen e).InputTokens ∧
    (buildCore m s e).OutputTokens
      = s.OutputTokens + (stepUsage m s.seen e).OutputTokens ∧
    (buildCore m s e).CacheReadTokens
      = s.CacheReadTokens + (stepUsage m s.seen e).CacheReadInputTokens ∧
    (buildCore m s e).CacheWriteTokens
      = s.CacheWriteTokens + (stepUsage m s.seen e).CacheCreationInputTokens := by
  unfold buildCore stepUsage
  by_cases h1 : e.type = "system"
  · have : firingOf m s.seen e = none := by unfold firingOf; simp [h1]
    by_cases h2 : e.Subtype = "compact_boundary" <;> simp [h1, h2, this]
  · by_cases h2 : e.type = "user"
    · have : firingOf m s.seen e = none := by unfold firingOf; simp [h1, h2]
      rcases hm : e.Message with _ | msg
      · simp [h1, h2, hm, this]
      · by_cases h3 : e.IsCompactSummary
        · simp [h1, h2, hm, h3, this]
        · refine ⟨?_, ?_, ?_, ?_⟩ <;>
            simp [h1, h2, hm, h3, this,
              foldl_proj (BuildState.InputTokens) countUserEvent
                (fun s ev => by rw [countUserEvent_eq]),
              foldl_proj (BuildState.OutputTokens) countUserEvent
                (fun s ev => by rw [countUserEvent_eq]),
              foldl_proj (BuildState.CacheReadTokens) countUserEvent
                (fun s ev => by rw [countUserEvent_eq]),
              foldl_proj (BuildState.CacheWriteTokens) countUserEvent
                (fun s ev => by rw [countUserEvent_eq])]
    · by_cases h3 : e.type = "assistant"
      · rcases hf : firingOf m s.seen e with _ | ⟨id, g⟩
        · simp [h1, h2, h3, hf]
        · simp [h1, h2, h3, hf, assistantEmit_usage]
      · have : firingOf m s.seen e = none := by unfold firingOf; simp [h3]
        simp [h1, h2, h3, this]

theorem buildCore_times (m : ResolveMap) (s : BuildState) (e : rawEntry) :
    (buildCore m s e).StartTime = s.StartTime ∧
    (buildCore m s e).LastUpdate = s.LastUpdate := by
  unfold buildCore
  by_cases h1 : e.type = "system"
  · by_cases h2 : e.Subtype = "compact_boundary" <;> simp [h1, h2]
  · by_cases h2 : e.type = "user"
    · rcases hm : e.Message with _ | msg
      · simp [h1, h2, hm]
      · by_cases h3 : e.IsCompactSummary
        · simp [h1, h2, hm, h3]
        · constructor <;>
            simp [h1, h2, hm, h3,
              foldl_proj (BuildState.StartTime) countUserEvent
                (fun s ev => by rw [countUserEvent_eq]),
              foldl_proj (BuildState.LastUpdate) countUserEvent
                (fun s ev => by rw [countUserEvent_eq])]
    · by_cases h3 : e.type = "assistant"
      · rcases hf : firingOf m s.seen e with _ | ⟨id, g⟩
        · simp [h1, h2, h3, hf]
        · simp [h1, h2, h3, hf, assistantEmit_times]
      · simp [h1, h2, h3]

theorem buildStep_Events (m : ResolveMap) (s : BuildState) (e : rawEntry) :
    (buildStep m s e).Events = s.Events ++ stepEvents m s.seen e := by
  unfold buildStep
  rw [buildCore_Events, updateTimes_eq]

theorem buildStep_seen (m : ResolveMap) (s : BuildState) (e : rawEntry) :
    (buildStep m s e).seen = seenStep m s.seen e := by
  unfold buildStep
  rw [buildCore_seen, updateTimes_eq]

theorem buildStep_usage (m : ResolveMap) (s : BuildState) (e : rawEntry) :
    (buildStep m s e).InputTokens
      = s.InputTokens + (stepUsage m s.seen e).InputTokens ∧
    (buildStep m s e).OutputTokens
      = s.OutputTokens + (stepUsage m s.seen e).OutputTokens ∧
    (buildStep m s e).CacheReadTokens
      = s.CacheReadTokens + (stepUsage m s.seen e).CacheReadInputTokens ∧
    (buildStep m s e).CacheWriteTokens
      = s.CacheWriteTokens + (stepUsage m s.seen e).CacheCreationInputTokens := by
  unfold buildStep
  rw [updateTimes_eq]
  have h := buildCore_usage m
    ({ s with
      StartTime := if s.StartTime.isZero
          || (!(parseTimestamp e.Timestamp).isZero
            && (parseTimestamp e.Timestamp).before s.StartTime)
        then parseTimestamp e.Timestamp else s.StartTime,
      LastUpdate := if (parseTimestamp e.Timestamp).after s.LastUpdate
        then parseTimestamp e.Timestamp else s.LastUpdate }) e
  simpa using h

theorem buildStep_times (m : ResolveMap) (s : BuildState) (e : rawEntry) :
    (buildStep m s e).StartTime = (updateTimes s (tsOf e)).StartTime ∧
    (buildStep m s e).LastUpdate = (updateTimes s (tsOf e)).LastUpdate := by
  unfold buildStep tsOf
  exact buildCore_times m (updateTimes s (parseTimestamp e.Timestamp)) e

/-! ### The event trace of the second pass -/

theorem build_events_trace (m : ResolveMap) :
    ∀ (es : List rawEntry) (s : BuildState),
      (List.foldl (buildStep m) s es).Events
        = s.Events ++ (eventTrace m s.seen es).flatten
  | [], s => by simp [eventTrace]
  | e :: es, s => by
    rw [List.foldl_cons, build_events_trace m es (buildStep m s e),
      buildStep_Events, buildStep_seen, eventTrace]
    simp

theorem JArr.mem_foldl_append {β : Type} (f : JVal → List β) (P : β → Prop)
    (hf : ∀ b x, x ∈ f b → P x) :
    ∀ (blocks : JArr) (acc : List β), (∀ x ∈ acc, P x) →
      ∀ x ∈ blocks.foldl (fun evs b => evs ++ f b) acc, P x
  | .nil, _, hacc => hacc
  | .cons b bs, acc, hacc => by
    intro x hx
    refine JArr.mem_foldl_append f P hf bs (acc ++ f b) ?_ x hx
    intro y hy
    rcases List.mem_append.mp hy with h | h
    exacts [hacc y h, hf b y h]

theorem userBlockEvents_timestamp (e : rawEntry) (ts : GoTime) (b : JVal) :
    ∀ ev ∈ userBlockEvents e ts b, ev.Timestamp = ts := by
  intro ev hev
  unfold userBlockEvents at hev
  rcases b with _ | _ | _ | _ | _ | bMap <;> try simp at hev
  repeat' split at hev
  all_goals simp_all

theorem assistantBlockEvents_timestamp (e : rawEntry) (ts : GoTime)
    (inTok outTok : Int) (b : JVal) :
    ∀ ev ∈ assistantBlockEvents e ts inTok outTok b, ev.Timestamp = ts := by
  intro ev hev
  unfold assistantBlockEvents at hev
  rcases b with _ | _ | _ | _ | _ | bMap <;> try simp at hev
  repeat' split at hev
  all_goals simp_all

theorem parseUserMessage_timestamp (e : rawEntry) (ts : GoTime) :
    ∀ ev ∈ parseUserMessage e ts, ev.Timestamp = ts := by
  intro ev hev
  unfold parseUserMessage at hev
  rcases hm : e.Message with _ | msg
  · simp [hm] at hev
  · simp only [hm] at hev
    rcases hc : msg.Content with _ | _ | _ | _ | blocks | _ <;> simp only [hc] at hev <;>
      try simp at hev
    · simp_all
    · exact JArr.mem_foldl_append (userBlockEvents e ts) (fun x => x.Timestamp = ts)
        (userBlockEvents_timestamp e ts) blocks [] (by simp) ev hev

theorem parseAssistantMessage_timestamp (e : rawEntry) (ts : GoTime) :
    ∀ ev ∈ parseAssistantMessage e ts, ev.Timestamp = ts := by
  intro ev hev
  unfold parseAssistantMessage at hev
  rcases hm : e.Message with _ | msg
  · simp [hm] at hev
  · simp only [hm] at hev
    rcases hc : msg.Content with _ | _ | _ | _ | blocks | _ <;> simp only [hc] at hev <;>
      try simp at hev
    exact JArr.mem_foldl_append _ (fun x => x.Timestamp = ts)
      (assistantBlockEvents_timestamp e ts _ _) blocks [] (by simp) ev hev

theorem stepEvents_timestamp (m : ResolveMap) (seen : List String) (e : rawEntry) :
    ∀ ev ∈ stepEvents m seen e, ev.Timestamp = tsOf e := by
  intro ev hev
  unfold stepEvents at hev
  by_cases h1 : e.type = "system"
  · by_cases h2 : e.Subtype = "compact_boundary" <;> simp [h1, h2] at hev
    rw [hev]; rfl
  · by_cases h2 : e.type = "user"
    · rcases hm : e.Message with _ | msg
      · simp [h1, h2, hm] at hev
      · by_cases h3 : e.IsCompactSummary
        · simp [h1, h2, hm, h3] at hev
        · simp only [h1, h2, hm, h3, if_false, if_true, ite_true, ite_false,
            if_neg, if_pos] at hev
          simp [h1, h2, h3, hm] at hev
          exact parseUserMessage_timestamp e _ ev hev
    · by_cases h3 : e.type = "assistant"
      · rcases hf : firingOf m seen e with _ | ⟨id, g⟩ <;>
          simp [h1, h2, h3, hf] at hev
        exact parseAssistantMessage_timestamp g.entry _ ev hev
      · simp [h1, h2, h3] at hev

theorem eventTrace_mem_ts (m : ResolveMap) :
    ∀ (es : List rawEntry) (seen : List String) (ev : Event),
      ev ∈ (eventTrace m seen es).flatten → ∃ e ∈ es, ev.Timestamp = tsOf e
  | [], seen, ev => by simp [eventTrace]
  | e :: es, seen, ev => by
    intro hev
    rw [eventTrace, List.flatten_cons] at hev
    rcases List.mem_append.mp hev with h | h
    · exact ⟨e, List.mem_cons_self e es, stepEvents_timestamp m seen e ev h⟩
    · obtain ⟨e', he', h2⟩ := eventTrace_mem_ts m es (seenStep m seen e) ev h
      exact ⟨e', List.mem_cons_of_mem e he', h2⟩

theorem eventTrace_sorted (m : ResolveMap) :
    ∀ (es : List rawEntry) (seen : List String),
      List.Pairwise (· ≤ ·) (es.map tsOf) →
      List.Pairwise (fun a b : Event => a.Timestamp ≤ b.Timestamp)
        ((eventTrace m seen es).flatten)
  | [], seen, _ => by simp [eventTrace]
  | e :: es, seen, h => by
    rw [List.map_cons, List.pairwise_cons] at h
    obtain ⟨hhead, htail⟩ := h
    rw [eventTrace, List.flatten_cons]
    refine (List.pairwise_append).2
      ⟨?_, eventTrace_sorted m es (seenStep m seen e) htail, ?_⟩
    · have hts := stepEvents_timestamp m seen e
      refine List.pairwise_iff_forall_sublist.2 ?_
      intro a b hab
      have hmem := hab.subset
      rw [hts a (hmem (List.mem_cons_self a [b])),
        hts b (hmem (List.mem_cons_of_mem a (List.mem_cons_self b [])))]
    · intro a ha b hb
      have h1 := stepEvents_timestamp m seen e a ha
      obtain ⟨e', he', h2⟩ := eventTrace_mem_ts m es (seenStep m seen e) b hb
      rw [h1, h2]
      exact hhead (tsOf e') (List.mem_map_of_mem tsOf he')

/-! ### Characterization of the revision resolver -/

theorem find?_congr {α : Type} (p q : α → Bool) (h : ∀ x, p x = q x) :
    ∀ l : List α, l.find? p = l.find? q
  | [] => rfl
  | a :: l => by
    rw [List.find?_cons, List.find?_cons, h a, find?_congr p q h l]

theorem lookupGroup_cons (p : String × assistantGroup) (m : ResolveMap)
    (id : String) :
    lookupGroup (p :: m) id = if p.1 = id then some p.2 else lookupGroup m id := by
  unfold lookupGroup
  rw [List.find?_cons]
  by_cases h : p.1 = id
  · rw [show (p.1 == id) = true from beq_iff_eq.mpr h, if_pos h]
  · rw [show (p.1 == id) = false from beq_false_of_ne h, if_neg h]

theorem lookupGroup_updateGroup (m : ResolveMap) (id id' : String)
    (g : assistantGroup) :
    lookupGroup (updateGroup m id g) id'
      = if id' = id then some g else lookupGroup m id' := by
  induction m with
  | nil =>
    show lookupGroup [(id, g)] id' = _
    rw [lookupGroup_cons]
    rcases eq_or_ne id' id with h | h
    · rw [if_pos h.symm, if_pos h]
    · rw [if_neg (Ne.symm h), if_neg h]
  | cons p rest ih =>
    show lookupGroup (if p.1 = id then (id, g) :: rest
      else p :: updateGroup rest id g) id' = _
    by_cases hp : p.1 = id
    · rw [if_pos hp, lookupGroup_cons]
      rcases eq_or_ne id' id with h | h
      · rw [if_pos h.symm, if_pos h]
      · rw [if_neg (Ne.symm h), if_neg h, lookupGroup_cons,
          if_neg (by rw [hp]; exact Ne.symm h)]
    · rw [if_neg hp, lookupGroup_cons, ih, lookupGroup_cons]
      rcases eq_or_ne id' id with h | h
      · rw [if_pos h, if_pos h, if_neg (by rw [← h] at hp; exact hp)]
      · rw [if_neg h, if_neg h]

theorem resolveStep_lookup (m : ResolveMap) (e : rawEntry) (id : String)
    (hid : id ≠ "") :
    lookupGroup (resolveStep m e) id
      = if isRevisionOf id e then updOne (lookupGroup m id) e
        else lookupGroup m id := by
  unfold resolveStep isRevisionOf updOne
  by_cases h1 : e.type = "assistant"
  · rcases hm : e.Message with _ | msg
    · simp [h1, hm]
    · by_cases h2 : msg.ID = ""
      · have : (msg.ID == id) = false := by
          rw [h2]; exact beq_false_of_ne (fun h' => hid h'.symm)
        simp [h1, hm, h2, this, Ne.symm hid]
      · by_cases h3 : msg.ID = id
        · subst h3
          rcases hl : lookupGroup m msg.ID with _ | ex
        -- none: insert
          · simp [h1, hm, h2, hl, lookupGroup_updateGroup, tsOf]
          · by_cases h4 : (parseTimestamp e.Timestamp).after ex.timestamp
            · simp [h1, hm, h2, hl, h4, lookupGroup_updateGroup, tsOf]
            · simp [h1, hm, h2, hl, h4, tsOf]
        · have hb : (msg.ID == id) = false := beq_false_of_ne h3
          rcases hl : lookupGroup m msg.ID with _ | ex
          · simp [h1, hm, h2, h3, hb, hl, lookupGroup_updateGroup, Ne.symm h3]
          · by_cases h4 : (parseTimestamp e.Timestamp).after ex.timestamp
            · simp [h1, hm, h2, h3, hb, hl, h4, lookupGroup_updateGroup,
                Ne.symm h3]
            · simp [h1, hm, h2, h3, hb, hl, h4]
  · simp [h1, isRevisionOf]

theorem resolve_lookup_aux (id : String) (hid : id ≠ "") :
    ∀ (es : List rawEntry) (m : ResolveMap),
      lookupGroup (es.foldl resolveStep m) id
        = (revisions es id).foldl updOne (lookupGroup m id)
  | [], m => rfl
  | e :: es, m => by
    rw [List.foldl_cons, resolve_lookup_aux id hid es (resolveStep m e)]
    unfold revisions
    rw [List.filter_cons]
    by_cases h : isRevisionOf id e
    · rw [if_pos h, List.foldl_cons, resolveStep_lookup m e id hid, if_pos h]
    · rw [if_neg h, resolveStep_lookup m e id hid, if_neg h]

theorem foldl_updOne_pick : ∀ (l : List rawEntry) (b : rawEntry),
    l.foldl updOne (some ⟨b, tsOf b⟩) = some ⟨pick b l, tsOf (pick b l)⟩
  | [], b => rfl
  | e :: l, b => by
    rw [List.foldl_cons]
    show l.foldl updOne (updOne (some ⟨b, tsOf b⟩) e) = _
    unfold updOne pick
    by_cases h : tsOf b < tsOf e
    · have : (tsOf e).after (tsOf b) = true := decide_eq_true h
      simp only [this, if_pos, if_true, ite_true]
      rw [if_pos h]
      exact foldl_updOne_pick l e
    · have : (tsOf e).after (tsOf b) = false := decide_eq_false h
      simp only [this, if_false, ite_false, Bool.false_eq_true]
      rw [if_neg h]
      exact foldl_updOne_pick l b

theorem maxIn_cons (a : rawEntry) (l : List rawEntry) (x : rawEntry) :
    maxIn (a :: l) x = (decide (tsOf a ≤ tsOf x) && maxIn l x) := by
  simp [maxIn]

theorem pick_eq_self_of_max : ∀ (l : List rawEntry) (b : rawEntry),
    (∀ e' ∈ l, tsOf e' ≤ tsOf b) → pick b l = b
  | [], _, _ => rfl
  | e :: l, b, h => by
    unfold pick
    rw [if_neg (not_lt.2 (h e (List.mem_cons_self e l)))]
    exact pick_eq_self_of_max l b (fun e' he' => h e' (List.mem_cons_of_mem e he'))

theorem firstMax_cons : ∀ (l : List rawEntry) (b : rawEntry),
    firstMax (b :: l) = some (pick b l)
  | [], b => by
    simp [firstMax, pick, maxIn, List.find?_cons]
  | e :: l, b => by
    unfold pick
    by_cases h : tsOf b < tsOf e
    · rw [if_pos h, ← firstMax_cons l e]
      have hb : maxIn (b :: e :: l) b = false := by
        rw [maxIn_cons, maxIn_cons, decide_eq_false (not_le.2 h)]
        simp
      have hpt : ∀ x, maxIn (b :: e :: l) x = maxIn (e :: l) x := by
        intro x
        rw [maxIn_cons]
        cases hq : maxIn (e :: l) x
        · simp
        · have hex : tsOf e ≤ tsOf x := by
            rw [maxIn_cons, Bool.and_eq_true] at hq
            exact of_decide_eq_true hq.1
          rw [decide_eq_true (le_trans (le_of_lt h) hex)]
          simp
      show List.find? (maxIn (b :: e :: l)) (b :: e :: l)
        = List.find? (maxIn (e :: l)) (e :: l)
      rw [List.find?_cons_of_neg _ (ne_true_of_eq_false hb)]
      exact find?_congr _ _ hpt (e :: l)
    · rw [if_neg h]
      have hle : tsOf e ≤ tsOf b := not_lt.1 h
      have hbpred : maxIn (b :: e :: l) b = maxIn (b :: l) b := by
        rw [maxIn_cons, maxIn_cons, maxIn_cons, decide_eq_true hle]
        simp
      have hpt : ∀ x, maxIn (b :: e :: l) x = maxIn (b :: l) x := by
        intro x
        rw [maxIn_cons, maxIn_cons, maxIn_cons]
        by_cases hbx : tsOf b ≤ tsOf x
        · rw [decide_eq_true hbx, decide_eq_true (le_trans hle hbx)]
          simp
        · rw [decide_eq_false hbx]
          simp
      cases hb : maxIn (b :: l) b
      · have hb' : maxIn (b :: e :: l) b = false := by rw [hbpred, hb]
        have hlb : maxIn l b = false := by
          rw [maxIn_cons] at hb
          simpa using hb
        have he : maxIn (b :: e :: l) e = false := by
          rw [maxIn_cons, maxIn_cons]
          by_cases hbe : tsOf b ≤ tsOf e
          · have heq : tsOf e = tsOf b := le_antisymm hle hbe
            have hl' : maxIn l e = false := by
              unfold maxIn
              rw [heq]
              exact hlb
            rw [hl']
            simp
          · rw [decide_eq_false hbe]
            simp
        rw [← firstMax_cons l b]
        show List.find? (maxIn (b :: e :: l)) (b :: e :: l)
          = List.find? (maxIn (b :: l)) (b :: l)
        rw [List.find?_cons_of_neg _ (ne_true_of_eq_false hb'), List.find?_cons_of_neg _ (ne_true_of_eq_false he),
          List.find?_cons_of_neg _ (ne_true_of_eq_false hb)]
        exact find?_congr _ _ hpt l
      · have hb' : maxIn (b :: e :: l) b = true := by rw [hbpred, hb]
        have hmax : ∀ e' ∈ l, tsOf e' ≤ tsOf b := by
          rw [maxIn_cons, Bool.and_eq_true] at hb
          intro e' he'
          have := hb.2
          unfold maxIn at this
          rw [List.all_eq_true] at this
          exact of_decide_eq_true (this e' he')
        rw [pick_eq_self_of_max l b hmax]
        show List.find? (maxIn (b :: e :: l)) (b :: e :: l) = some b
        rw [List.find?_cons_of_pos _ hb']

/-- The resolved map holds, for each non-empty ID, exactly the
earliest-in-file revision attaining the greatest timestamp, stamped with its
parsed timestamp. -/
theorem resolve_lookup (es : List rawEntry) (id : String) (hid : id ≠ "") :
    lookupGroup (resolve es) id
      = (firstMaxRevision es id).map (fun a => (⟨a, tsOf a⟩ : assistantGroup)) := by
  unfold resolve firstMaxRevision
  rw [resolve_lookup_aux id hid es []]
  show (revisions es id).foldl updOne none = _
  cases hrev : revisions es id with
  | nil => simp [firstMax]
  | cons e l =>
    rw [List.foldl_cons]
    show l.foldl updOne (updOne none e) = _
    rw [show updOne none e = some ⟨e, tsOf e⟩ from rfl, foldl_updOne_pick,
      firstMax_cons]
    rfl

/-! ### Exactly-once emission -/

theorem contains_iff_mem (l : List String) (a : String) :
    l.contains a = true ↔ a ∈ l := by
  simp [List.contains]

theorem firingOf_some_inv (m : ResolveMap) (seen : List String) (e : rawEntry)
    (id : String) (g : assistantGroup) (h : firingOf m seen e = some (id, g)) :
    matchesAuth m id e ∧ id ∉ seen := by
  unfold firingOf at h
  by_cases h1 : e.type = "assistant"
  · rw [if_pos h1] at h
    rcases hm : e.Message with _ | msg
    · rw [hm] at h
      exact Option.noConfusion h
    · simp only [hm] at h
      by_cases h2 : msg.ID = ""
      · rw [if_pos h2] at h
        exact Option.noConfusion h
      · rw [if_neg h2] at h
        by_cases h3 : seen.contains msg.ID
        · rw [if_pos h3] at h
          exact Option.noConfusion h
        · rw [if_neg h3] at h
          rcases hl : lookupGroup m msg.ID with _ | g'
          · rw [hl] at h
            exact Option.noConfusion h
          · simp only [hl] at h
            by_cases h4 : e.UUID = g'.entry.UUID
            · rw [if_pos h4] at h
              obtain ⟨hid, hg⟩ : msg.ID = id ∧ g' = g := by
                simpa using h
              refine ⟨⟨h1, hid ▸ h2, ⟨msg, hm, hid⟩, ⟨g', hid ▸ hl, h4⟩⟩, ?_⟩
              intro hmem
              exact h3 ((contains_iff_mem seen msg.ID).mpr (hid.symm ▸ hmem))
            · rw [if_neg h4] at h
              exact Option.noConfusion h
  · rw [if_neg h1] at h
    exact Option.noConfusion h

theorem firingOf_some_of (m : ResolveMap) (seen : List String) (e : rawEntry)
    (id : String) (hM : matchesAuth m id e) (hseen : id ∉ seen) :
    ∃ g, lookupGroup m id = some g ∧ firingOf m seen e = some (id, g) := by
  obtain ⟨h1, h2, ⟨msg, hm, hid⟩, ⟨g, hl, hu⟩⟩ := hM
  refine ⟨g, hl, ?_⟩
  unfold firingOf
  rw [if_pos h1]
  simp only [hm]
  have hc : seen.contains id = false := by
    cases hcc : seen.contains id
    · rfl
    · exact absurd ((contains_iff_mem seen id).mp hcc) hseen
  rw [hid, if_neg h2, if_neg (by rw [hc]; exact Bool.false_ne_true)]
  simp only [hl]
  rw [if_pos hu]

theorem seenStep_mem (m : ResolveMap) (seen : List String) (e : rawEntry)
    (id : String) :
    id ∈ seenStep m seen e ↔
      id ∈ seen ∨ ∃ g, firingOf m seen e = some (id, g) := by
  unfold seenStep
  rcases hf : firingOf m seen e with _ | ⟨id', g⟩
  · simp
  · simp only [List.mem_append, List.mem_singleton]
    constructor
    · rintro (h | h)
      · exact Or.inl h
      · exact Or.inr ⟨g, by rw [h]⟩
    · rintro (h | ⟨g', h⟩)
      · exact Or.inl h
      · obtain ⟨h1, _⟩ : id' = id ∧ g = g' := by simpa using h
        exact Or.inr h1.symm

theorem emitTrace_count_zero (m : ResolveMap) (id : String) :
    ∀ (es : List rawEntry) (seen : List String), id ∈ seen →
      (emitTrace m seen es).count (some id) = 0
  | [], _, _ => rfl
  | e :: es, seen, hmem => by
    rw [emitTrace, List.count_cons]
    have htail : (emitTrace m (seenStep m seen e) es).count (some id) = 0 :=
      emitTrace_count_zero m id es (seenStep m seen e)
        ((seenStep_mem m seen e id).mpr (Or.inl hmem))
    have hhead : ((firingOf m seen e).map (fun p => p.1) == some id) = false := by
      rcases hf : firingOf m seen e with _ | ⟨id', g⟩
      · simp
      · have := firingOf_some_inv m seen e id' g hf
        simp only [Option.map_some']
        refine beq_false_of_ne ?_
        intro heq
        obtain ⟨_, hnid⟩ := this
        have hii : id' = id := by simpa using heq
        exact hnid (hii.symm ▸ hmem)
    rw [htail, hhead]
    simp

theorem emitTrace_count_one (m : ResolveMap) (id : String) :
    ∀ (es : List rawEntry) (seen : List String), id ∉ seen →
      (∃ e ∈ es, matchesAuth m id e) →
      (emitTrace m seen es).count (some id) = 1
  | [], _, _, hex => absurd hex (by simp)
  | e :: es, seen, hseen, hex => by
    rw [emitTrace, List.count_cons]
    rcases hf : firingOf m seen e with _ | ⟨id', g⟩
    · -- the head does not fire at all; it cannot be the matching witness
      have hnot : ¬ matchesAuth m id e := by
        intro hM
        obtain ⟨g, _, hfire⟩ := firingOf_some_of m seen e id hM hseen
        rw [hf] at hfire
        exact absurd hfire (by simp)
      have hwit : ∃ e' ∈ es, matchesAuth m id e' := by
        obtain ⟨e', he', hM⟩ := hex
        rcases List.mem_cons.mp he' with h | h
        · exact absurd (h ▸ hM) hnot
        · exact ⟨e', h, hM⟩
      have hseen' : id ∉ seenStep m seen e := by
        rw [seenStep_mem]
        rintro (h | ⟨g, h⟩)
        · exact hseen h
        · rw [hf] at h; exact absurd h (by simp)
      rw [emitTrace_count_one m id es (seenStep m seen e) hseen' hwit]
      simp
    · by_cases hid : id' = id
      · subst hid
        have hseen' : id' ∈ seenStep m seen e :=
          (seenStep_mem m seen e id').mpr (Or.inr ⟨g, hf⟩)
        rw [emitTrace_count_zero m id' es (seenStep m seen e) hseen']
        simp
      · have hhead : ((some id' : Option String) == some id) = false :=
          beq_false_of_ne (by simpa using hid)
        have hseen' : id ∉ seenStep m seen e := by
          rw [seenStep_mem]
          rintro (h | ⟨g', h⟩)
          · exact hseen h
          · rw [hf] at h
            obtain ⟨h1, _⟩ : id' = id ∧ g = g' := by simpa using h
            exact hid h1
        have hnot : ¬ matchesAuth m id e := by
          intro hM
          obtain ⟨g', _, hfire⟩ := firingOf_some_of m seen e id hM hseen
          rw [hf] at hfire
          obtain ⟨h1, _⟩ : id' = id ∧ g = g' := by simpa using hfire
          exact hid h1
        have hwit : ∃ e' ∈ es, matchesAuth m id e' := by
          obtain ⟨e', he', hM⟩ := hex
          rcases List.mem_cons.mp he' with h | h
          · exact absurd (h ▸ hM) hnot
          · exact ⟨e', h, hM⟩
        rw [emitTrace_count_one m id es (seenStep m seen e) hseen' hwit,
          Option.map_some', hhead]
        simp

theorem mem_assistantIds (es : List rawEntry) (id : String) :
    id ∈ assistantIds es ↔
      ∃ e ∈ es, e.type = "assistant" ∧
        ∃ msg, e.Message = some msg ∧ msg.ID = id ∧ id ≠ "" := by
  unfold assistantIds
  rw [List.mem_dedup, List.mem_filterMap]
  constructor
  · rintro ⟨e, he, hf⟩
    by_cases h1 : e.type = "assistant"
    · rw [if_pos h1] at hf
      rcases hm : e.Message with _ | msg
      · rw [hm] at hf
        exact Option.noConfusion hf
      · simp only [hm] at hf
        by_cases h2 : msg.ID = ""
        · rw [if_pos h2] at hf
          exact Option.noConfusion hf
        · rw [if_neg h2] at hf
          obtain hf' : msg.ID = id := by simpa using hf
          exact ⟨e, he, h1, msg, hm, hf', hf' ▸ h2⟩
    · rw [if_neg h1] at hf
      exact Option.noConfusion hf
  · rintro ⟨e, he, h1, msg, hm, hid, hne⟩
    refine ⟨e, he, ?_⟩
    rw [if_pos h1]
    simp only [hm]
    rw [if_neg (hid.symm ▸ hne), hid]

theorem assistantIds_matches (es : List rawEntry) (id : String)
    (h : id ∈ assistantIds es) :
    ∃ a ∈ es, matchesAuth (resolve es) id a := by
  obtain ⟨e, he, h1, msg, hm, hid, hne⟩ := (mem_assistantIds es id).mp h
  -- the file holds at least one revision of `id`, so the resolver retains one
  have hrev : e ∈ revisions es id := by
    unfold revisions
    rw [List.mem_filter]
    refine ⟨he, ?_⟩
    unfold isRevisionOf
    rw [hm]
    simp [h1, hid]
  have hlook := resolve_lookup es id hne
  rcases hfm : firstMaxRevision es id with _ | a
  · unfold firstMaxRevision at hfm
    rcases hl : revisions es id with _ | ⟨x, xs⟩
    · rw [hl] at hrev; exact absurd hrev (by simp)
    · rw [hl, firstMax_cons] at hfm
      exact absurd hfm (by simp)
  · have ha : a ∈ revisions es id := by
      unfold firstMaxRevision firstMax at hfm
      exact List.mem_of_find?_eq_some hfm
    have haprops : a.type = "assistant" ∧ ∃ amsg, a.Message = some amsg ∧ amsg.ID = id := by
      unfold revisions at ha
      have := (List.mem_filter.mp ha).2
      unfold isRevisionOf at this
      rcases ham : a.Message with _ | amsg <;> rw [ham] at this
      · simp at this
      · rw [Bool.and_eq_true, beq_iff_eq, beq_iff_eq] at this
        exact ⟨this.1, amsg, rfl, this.2⟩
    have hmem_a : a ∈ es := by
      unfold revisions at ha
      exact (List.mem_filter.mp ha).1
    refine ⟨a, hmem_a, haprops.1, hne, haprops.2, ?_⟩
    rw [hlook, hfm]
    exact ⟨⟨a, tsOf a⟩, rfl, rfl⟩

/-! ### Token accumulation along the trace -/

theorem firingOf_lookup (m : ResolveMap) (seen : List String) (e : rawEntry)
    (id : String) (g : assistantGroup) (h : firingOf m seen e = some (id, g)) :
    lookupGroup m id = some g := by
  unfold firingOf at h
  by_cases h1 : e.type = "assistant"
  · rw [if_pos h1] at h
    rcases hm : e.Message with _ | msg
    · rw [hm] at h
      exact Option.noConfusion h
    · simp only [hm] at h
      by_cases h2 : msg.ID = ""
      · rw [if_pos h2] at h
        exact Option.noConfusion h
      · rw [if_neg h2] at h
        by_cases h3 : seen.contains msg.ID
        · rw [if_pos h3] at h
          exact Option.noConfusion h
        · rw [if_neg h3] at h
          rcases hl : lookupGroup m msg.ID with _ | g'
          · rw [hl] at h
            exact Option.noConfusion h
          · simp only [hl] at h
            by_cases h4 : e.UUID = g'.entry.UUID
            · rw [if_pos h4] at h
              obtain ⟨hid, hg⟩ : msg.ID = id ∧ g' = g := by simpa using h
              rw [← hid, hl, hg]
            · rw [if_neg h4] at h
              exact Option.noConfusion h
  · rw [if_neg h1] at h
    exact Option.noConfusion h

theorem stepUsage_eq_traceUsage (m : ResolveMap) (seen : List String)
    (e : rawEntry) :
    stepUsage m seen e = traceUsage m ((firingOf m seen e).map (fun p => p.1)) := by
  unfold stepUsage traceUsage
  rcases hf : firingOf m seen e with _ | ⟨id, g⟩
  · rfl
  · rw [Option.map_some']
    show usageOf g = authUsage m id
    unfold authUsage
    rw [firingOf_lookup m seen e id g hf]

theorem stepEvents_of_firing (m : ResolveMap) (seen : List String)
    (e : rawEntry) (id : String) (g : assistantGroup)
    (h : firingOf m seen e = some (id, g)) :
    stepEvents m seen e = parseAssistantMessage g.entry (tsOf e) := by
  have h1 : e.type = "assistant" := (firingOf_some_inv m seen e id g h).1.1
  unfold stepEvents
  rw [if_neg (by rw [h1]; decide), if_neg (by rw [h1]; decide), if_pos h1, h]
  rfl

theorem build_tokens_trace (m : ResolveMap) :
    ∀ (es : List rawEntry) (s : BuildState),
      (List.foldl (buildStep m) s es).InputTokens
        = s.InputTokens + ((emitTrace m s.seen es).map
            (fun o => (traceUsage m o).InputTokens)).sum ∧
      (List.foldl (buildStep m) s es).OutputTokens
        = s.OutputTokens + ((emitTrace m s.seen es).map
            (fun o => (traceUsage m o).OutputTokens)).sum ∧
      (List.foldl (buildStep m) s es).CacheReadTokens
        = s.CacheReadTokens + ((emitTrace m s.seen es).map
            (fun o => (traceUsage m o).CacheReadInputTokens)).sum ∧
      (List.foldl (buildStep m) s es).CacheWriteTokens
        = s.CacheWriteTokens + ((emitTrace m s.seen es).map
            (fun o => (traceUsage m o).CacheCreationInputTokens)).sum
  | [], s => by simp [emitTrace]
  | e :: es, s => by
    have ih := build_tokens_trace m es (buildStep m s e)
    rw [buildStep_seen] at ih
    obtain ⟨ih1, ih2, ih3, ih4⟩ := ih
    obtain ⟨hu1, hu2, hu3, hu4⟩ := buildStep_usage m s e
    rw [List.foldl_cons, emitTrace]
    rw [stepUsage_eq_traceUsage] at hu1 hu2 hu3 hu4
    refine ⟨?_, ?_, ?_, ?_⟩ <;>
      simp [ih1, ih2, ih3, ih4, hu1, hu2, hu3, hu4, add_assoc]

theorem count_reduceOption {α : Type} [DecidableEq α] (a : α) :
    ∀ l : List (Option α), (l.reduceOption).count a = l.count (some a)
  | [] => rfl
  | o :: l => by
    rcases o with _ | b
    · rw [List.reduceOption_cons_of_none, List.count_cons]
      simp [count_reduceOption a l]
    · rw [List.reduceOption_cons_of_some, List.count_cons, List.count_cons,
        count_reduceOption a l]
      by_cases h : b = a <;> simp [h]

theorem sum_map_reduceOption (f : String → Int) :
    ∀ l : List (Option String),
      (l.map (fun o => match o with | some a => f a | none => 0)).sum
        = (l.reduceOption.map f).sum
  | [] => rfl
  | o :: l => by
    rcases o with _ | b
    · rw [List.map_cons, List.reduceOption_cons_of_none, List.sum_cons,
        sum_map_reduceOption f l]
      simp
    · rw [List.map_cons, List.reduceOption_cons_of_some, List.map_cons,
        List.sum_cons, List.sum_cons, sum_map_reduceOption f l]

theorem assistantIds_cons_supset (e : rawEntry) (es : List rawEntry)
    (id : String) (h : id ∈ assistantIds es) : id ∈ assistantIds (e :: es) := by
  rw [mem_assistantIds] at h ⊢
  obtain ⟨e', he', hp⟩ := h
  exact ⟨e', List.mem_cons_of_mem e he', hp⟩

theorem emitTrace_count_zero_of_not_mem (m : ResolveMap) (id : String) :
    ∀ (es : List rawEntry) (seen : List String), id ∉ assistantIds es →
      (emitTrace m seen es).count (some id) = 0
  | [], _, _ => rfl
  | e :: es, seen, h => by
    rw [emitTrace, List.count_cons]
    have htail := emitTrace_count_zero_of_not_mem m id es (seenStep m seen e)
      (fun hmem => h (assistantIds_cons_supset e es id hmem))
    have hhead : ((firingOf m seen e).map (fun p => p.1) == some id) = false := by
      rcases hf : firingOf m seen e with _ | ⟨id', g⟩
      · simp
      · rw [Option.map_some']
        refine beq_false_of_ne ?_
        intro heq
        have hii : id' = id := by simpa using heq
        obtain ⟨⟨h1, hne, ⟨msg, hm, hid⟩, _⟩, _⟩ :=
          firingOf_some_inv m seen e id' g hf
        exact h ((mem_assistantIds (e :: es) id).mpr
          ⟨e, List.mem_cons_self e es, h1, msg, hm, hid.trans hii, hii ▸ hne⟩)
    rw [htail, hhead]
    simp

/-- The multiset of emitted IDs of a full build is exactly the set of
distinct non-empty assistant message IDs of the file. -/
theorem emitTrace_perm_assistantIds (es : List rawEntry) :
    ((emitTrace (resolve es) [] es).reduceOption).Perm (assistantIds es) := by
  rw [List.perm_iff_count]
  intro id
  rw [count_reduceOption]
  by_cases h : id ∈ assistantIds es
  · rw [emitTrace_count_one (resolve es) id es [] (by simp)
      (assistantIds_matches es id h)]
    have hnodup : (assistantIds es).Nodup := List.nodup_dedup _
    exact (List.count_eq_one_of_mem hnodup h).symm
  · rw [List.count_eq_zero_of_not_mem h]
    exact emitTrace_count_zero_of_not_mem (resolve es) id es [] h

/-! ### Store invariants -/

theorem storePut_mem : ∀ (m : StoreMap) (id : String) (sess : Session)
    (p : String × Session), p ∈ storePut m id sess → p = (id, sess) ∨ p ∈ m
  | [], id, sess, p, h => Or.inl (by simpa [storePut] using h)
  | q :: rest, id, sess, p, h => by
    unfold storePut at h
    by_cases hq : q.1 = id
    · rw [if_pos hq] at h
      rcases List.mem_cons.mp h with h | h
      · exact Or.inl h
      · exact Or.inr (List.mem_cons_of_mem q h)
    · rw [if_neg hq] at h
      rcases List.mem_cons.mp h with h | h
      · exact Or.inr (h ▸ List.mem_cons_self q rest)
      · rcases storePut_mem rest id sess p h with h | h
        · exact Or.inl h
        · exact Or.inr (List.mem_cons_of_mem q h)

theorem storeWF_put (m : StoreMap) (id : String) (sess : Session)
    (hm : storeWF m) (h1 : sess.Events ≠ [])
    (h2 : sess.Info.EventCount = (sess.Events.length : Int)) :
    storeWF (storePut m id sess) := by
  intro p hp
  rcases storePut_mem m id sess p hp with h | h
  · rw [h]
    exact ⟨h1, h2⟩
  · exact hm p h

theorem parse_EventCount (path : String) (lines : List Line)
    (ord : List String → List String) :
    (ParseSessionFile path lines ord).Info.EventCount
      = ((ParseSessionFile path lines ord).Events.length : Int) := rfl

theorem storeWF_scanStep (ord : List String → List String) (m : StoreMap)
    (f : ScanFile) (hm : storeWF m) : storeWF (scanStep ord m f) := by
  unfold scanStep
  rcases hc : f.content with _ | lines
  · exact hm
  · simp only [hc]
    by_cases hz : (ParseSessionFile f.path lines ord).Events.length = 0
    · rw [if_pos hz]
      exact hm
    · rw [if_neg hz]
      exact storeWF_put m _ _ hm
        (fun hnil => hz (by rw [hnil]; rfl))
        (parse_EventCount f.path lines ord)

theorem storeWF_watchReparse (ord : List String → List String) (m : StoreMap)
    (f : ScanFile) (hm : storeWF m) : storeWF (watchReparse ord m f) := by
  unfold watchReparse
  rcases hc : f.content with _ | lines
  · exact hm
  · simp only [hc]
    by_cases hz : (ParseSessionFile f.path lines ord).Events.length = 0
    · rw [if_pos hz]
      exact hm
    · rw [if_neg hz]
      exact storeWF_put m _ _ hm
        (fun hnil => hz (by rw [hnil]; rfl))
        (parse_EventCount f.path lines ord)

theorem storeWF_scan (ord : List String → List String) :
    ∀ (files : List ScanFile) (m : StoreMap), storeWF m →
      storeWF (storeScan ord m files)
  | [], _, hm => hm
  | f :: files, m, hm =>
    storeWF_scan ord files (scanStep ord m f) (storeWF_scanStep ord m f hm)

theorem storeWF_watchFold (ord : List String → List String) :
    ∀ (ws : List ScanFile) (m : StoreMap), storeWF m →
      storeWF (ws.foldl (watchReparse ord) m)
  | [], _, hm => hm
  | f :: ws, m, hm =>
    storeWF_watchFold ord ws (watchReparse ord m f)
      (storeWF_watchReparse ord m f hm)

theorem storeWF_storeAfter (ord : List String → List String)
    (files ws : List ScanFile) : storeWF (storeAfter ord files ws) :=
  storeWF_watchFold ord ws (storeScan ord [] files)
    (storeWF_scan ord files [] (fun p hp => absurd hp (by simp)))

theorem storeGet_mem (m : StoreMap) (id : String) (sess : Session)
    (h : storeGet m id = some sess) : ∃ k, (k, sess) ∈ m := by
  unfold storeGet at h
  rcases hf : m.find? (fun p => p.1 == id) with _ | p
  · rw [hf] at h
    exact Option.noConfusion h
  · rw [hf] at h
    obtain hp : p.2 = sess := by simpa using h
    exact ⟨p.1, hp ▸ List.mem_of_find?_eq_some hf⟩

theorem insertByLastUpdate_perm (x : SessionInfo) :
    ∀ l : List SessionInfo, (insertByLastUpdate x l).Perm (x :: l)
  | [] => List.Perm.refl _
  | y :: ys => by
    unfold insertByLastUpdate
    split
    · exact List.Perm.refl _
    · exact ((insertByLastUpdate_perm x ys).cons y).trans (List.Perm.swap x y ys)

theorem GetSessions_perm (m : StoreMap) :
    (GetSessions m).Perm (m.map (fun p => p.2.Info)) := by
  unfold GetSessions
  generalize m.map (fun p => p.2.Info) = l
  induction l with
  | nil => exact List.Perm.refl _
  | cons x l ih =>
    rw [List.foldr_cons]
    exact (insertByLastUpdate_perm x _).trans (ih.cons x)

theorem GetSessions_mem (m : StoreMap) (info : SessionInfo)
    (h : info ∈ GetSessions m) : ∃ p ∈ m, info = p.2.Info := by
  have := (GetSessions_perm m).mem_iff.mp h
  obtain ⟨p, hp, hinfo⟩ := List.mem_map.mp this
  exact ⟨p, hp, hinfo.symm⟩

/-! ### Path derivation -/

theorem goBase_eq_lastComponent (s : String) (h1 : s ≠ "")
    (h2 : s.data.getLast? ≠ some '/') :
    goBase s = lastSlashComponent s := by
  unfold goBase goBaseChars lastSlashComponent
  have hd : s.data ≠ [] := by
    intro h
    apply h1
    cases s with
    | mk l =>
      simp only at h
      rw [h]
  rw [if_neg (by simpa [List.isEmpty_iff] using hd)]
  have hrev : s.data.reverse ≠ [] := by simpa using hd
  obtain ⟨c, t, hct⟩ := List.exists_cons_of_ne_nil hrev
  have hc : (c == '/') = false := by
    refine beq_false_of_ne ?_
    intro h
    apply h2
    rw [← List.head?_reverse, hct, h]
    rfl
  rw [hct, List.dropWhile_cons, hc]
  simp only [Bool.false_eq_true, if_false]
  have hback : (c :: t).reverse = s.data := by
    rw [← hct, List.reverse_reverse]
  rw [hback]
  rw [if_neg (by simpa [List.isEmpty_iff] using hd)]
  rw [hct]

theorem trace_sum_eq (es : List rawEntry) (f : rawUsage → Int)
    (hf : f {} = 0) :
    ((emitTrace (resolve es) [] es).map
        (fun o => f (traceUsage (resolve es) o))).sum
      = ((assistantIds es).map (fun id => f (authUsage (resolve es) id))).sum := by
  have h1 : ((emitTrace (resolve es) [] es).map
      (fun o => f (traceUsage (resolve es) o))).sum
      = ((emitTrace (resolve es) [] es).map
          (fun o => match o with
            | some a => f (authUsage (resolve es) a)
            | none => 0)).sum := by
    congr 1
    refine List.map_congr_left ?_
    intro o _
    cases o
    · simpa [traceUsage] using hf
    · rfl
  rw [h1, sum_map_reduceOption]
  exact List.Perm.sum_eq
    ((emitTrace_perm_assistantIds es).map (fun id => f (authUsage (resolve es) id)))

/-! ### The claims -/

/-- C1 (counterexample): parsing the same content under two admissible map
iteration orders yields different Sessions — the `FilesRead` slice order
differs, so run-to-run determinism of the slices fails. -/
theorem c1_determinism_counterexample :
    ParseSessionFile "/p/q/r.jsonl" [.entry exA2] idOrd
      ≠ ParseSessionFile "/p/q/r.jsonl" [.entry exA2] revOrd := by
  intro h
  have h' := congrArg (fun sess => sess.Info.FilesRead) h
  exact absurd h' (by decide)

/-- C1 (amended): two parses of byte-identical content agree on the event
sequence and every SessionInfo field except the order of the three
file-path slices, which agree as sets (they are permutations of each
other); Go map iteration order only permutes those slices. -/
theorem c1_determinism_amended (path : String) (lines : List Line)
    (ord1 ord2 : List String → List String)
    (h1 : ∀ l, (ord1 l).Perm l) (h2 : ∀ l, (ord2 l).Perm l) :
    (ParseSessionFile path lines ord1).Events
      = (ParseSessionFile path lines ord2).Events ∧
    (ParseSessionFile path lines ord1).Info.ID
      = (ParseSessionFile path lines ord2).Info.ID ∧
    (ParseSessionFile path lines ord1).Info.ProjectDir
      = (ParseSessionFile path lines ord2).Info.ProjectDir ∧
    (ParseSessionFile path lines ord1).Info.ProjectName
      = (ParseSessionFile path lines ord2).Info.ProjectName ∧
    (ParseSessionFile path lines ord1).Info.FilePath
      = (ParseSessionFile path lines ord2).Info.FilePath ∧
    (ParseSessionFile path lines ord1).Info.StartTime
      = (ParseSessionFile path lines ord2).Info.StartTime ∧
    (ParseSessionFile path lines ord1).Info.LastUpdate
      = (ParseSessionFile path lines ord2).Info.LastUpdate ∧
    (ParseSessionFile path lines ord1).Info.InputTokens
      = (ParseSessionFile path lines ord2).Info.InputTokens ∧
    (ParseSessionFile path lines ord1).Info.OutputTokens
      = (ParseSessionFile path lines ord2).Info.OutputTokens ∧
    (ParseSessionFile path lines ord1).Info.CacheReadTokens
      = (ParseSessionFile path lines ord2).Info.CacheReadTokens ∧
    (ParseSessionFile path lines ord1).Info.CacheWriteTokens
      = (ParseSessionFile path lines ord2).Info.CacheWriteTokens ∧
    (ParseSessionFile path lines ord1).Info.CostUSD
      = (ParseSessionFile path lines ord2).Info.CostUSD ∧
    (ParseSessionFile path lines ord1).Info.EventCount
      = (ParseSessionFile path lines ord2).Info.EventCount ∧
    (ParseSessionFile path lines ord1).Info.ToolCallCount
      = (ParseSessionFile path lines ord2).Info.ToolCallCount ∧
    (ParseSessionFile path lines ord1).Info.UserPrompts
      = (ParseSessionFile path lines ord2).Info.UserPrompts ∧
    (ParseSessionFile path lines ord1).Info.BashCommands
      = (ParseSessionFile path lines ord2).Info.BashCommands ∧
    (ParseSessionFile path lines ord1).Info.Errors
      = (ParseSessionFile path lines ord2).Info.Errors ∧
    (ParseSessionFile path lines ord1).Info.IsAgent
      = (ParseSessionFile path lines ord2).Info.IsAgent ∧
    (ParseSessionFile path lines ord1).Info.Model
      = (ParseSessionFile path lines ord2).Info.Model ∧
    (ParseSessionFile path lines ord1).Info.CWD
      = (ParseSessionFile path lines ord2).Info.CWD ∧
    (ParseSessionFile path lines ord1).Info.FilesRead.Perm
      (ParseSessionFile path lines ord2).Info.FilesRead ∧
    (ParseSessionFile path lines ord1).Info.FilesWritten.Perm
      (ParseSessionFile path lines ord2).Info.FilesWritten ∧
    (ParseSessionFile path lines ord1).Info.FilesCreated.Perm
      (ParseSessionFile path lines ord2).Info.FilesCreated := by
  refine ⟨rfl, rfl, rfl, rfl, rfl, rfl, rfl, rfl, rfl, rfl, rfl, rfl, rfl,
    rfl, rfl, rfl, rfl, rfl, rfl, rfl, ?_, ?_, ?_⟩ <;>
    exact (h1 _).trans (h2 _).symm

/-- C1 (witness): the amended determinism at a concrete file, with the
identity and the reversal as the two admissible iteration orders. -/
theorem c1_determinism_witness :
    (ParseSessionFile "/p/q/r.jsonl" [.entry exA2] idOrd).Events
      = (ParseSessionFile "/p/q/r.jsonl" [.entry exA2] revOrd).Events ∧
    (ParseSessionFile "/p/q/r.jsonl" [.entry exA2] idOrd).Info.ID
      = (ParseSessionFile "/p/q/r.jsonl" [.entry exA2] revOrd).Info.ID ∧
    (ParseSessionFile "/p/q/r.jsonl" [.entry exA2] idOrd).Info.ProjectDir
      = (ParseSessionFile "/p/q/r.jsonl" [.entry exA2] revOrd).Info.ProjectDir ∧
    (ParseSessionFile "/p/q/r.jsonl" [.entry exA2] idOrd).Info.ProjectName
      = (ParseSessionFile "/p/q/r.jsonl" [.entry exA2] revOrd).Info.ProjectName ∧
    (ParseSessionFile "/p/q/r.jsonl" [.entry exA2] idOrd).Info.FilePath
      = (ParseSessionFile "/p/q/r.jsonl" [.entry exA2] revOrd).Info.FilePath ∧
    (ParseSessionFile "/p/q/r.jsonl" [.entry exA2] idOrd).Info.StartTime
      = (ParseSessionFile "/p/q/r.jsonl" [.entry exA2] revOrd).Info.StartTime ∧
    (ParseSessionFile "/p/q/r.jsonl" [.entry exA2] idOrd).Info.LastUpdate
      = (ParseSessionFile "/p/q/r.jsonl" [.entry exA2] revOrd).Info.LastUpdate ∧
    (ParseSessionFile "/p/q/r.jsonl" [.entry exA2] idOrd).Info.InputTokens
      = (ParseSessionFile "/p/q/r.jsonl" [.entry exA2] revOrd).Info.InputTokens ∧
    (ParseSessionFile "/p/q/r.jsonl" [.entry exA2] idOrd).Info.OutputTokens
      = (ParseSessionFile "/p/q/r.jsonl" [.entry exA2] revOrd).Info.OutputTokens ∧
    (ParseSessionFile "/p/q/r.jsonl" [.entry exA2] idOrd).Info.CacheReadTokens
      = (ParseSessionFile "/p/q/r.jsonl" [.entry exA2] revOrd).Info.CacheReadTokens ∧
    (ParseSessionFile "/p/q/r.jsonl" [.entry exA2] idOrd).Info.CacheWriteTokens
      = (ParseSessionFile "/p/q/r.jsonl" [.entry exA2] revOrd).Info.CacheWriteTokens ∧
    (ParseSessionFile "/p/q/r.jsonl" [.entry exA2] idOrd).Info.CostUSD
      = (ParseSessionFile "/p/q/r.jsonl" [.entry exA2] revOrd).Info.CostUSD ∧
    (ParseSessionFile "/p/q/r.jsonl" [.entry exA2] idOrd).Info.EventCount
      = (ParseSessionFile "/p/q/r.jsonl" [.entry exA2] revOrd).Info.EventCount ∧
    (ParseSessionFile "/p/q/r.jsonl" [.entry exA2] idOrd).Info.ToolCallCount
      = (ParseSessionFile "/p/q/r.jsonl" [.entry exA2] revOrd).Info.ToolCallCount ∧
    (ParseSessionFile "/p/q/r.jsonl" [.entry exA2] idOrd).Info.UserPrompts
      = (ParseSessionFile "/p/q/r.jsonl" [.entry exA2] revOrd).Info.UserPrompts ∧
    (ParseSessionFile "/p/q/r.jsonl" [.entry exA2] idOrd).Info.BashCommands
      = (ParseSessionFile "/p/q/r.jsonl" [.entry exA2] revOrd).Info.BashCommands ∧
    (ParseSessionFile "/p/q/r.jsonl" [.entry exA2] idOrd).Info.Errors
      = (ParseSessionFile "/p/q/r.jsonl" [.entry exA2] revOrd).Info.Errors ∧
    (ParseSessionFile "/p/q/r.jsonl" [.entry exA2] idOrd).Info.IsAgent
      = (ParseSessionFile "/p/q/r.jsonl" [.entry exA2] revOrd).Info.IsAgent ∧
    (ParseSessionFile "/p/q/r.jsonl" [.entry exA2] idOrd).Info.Model
      = (ParseSessionFile "/p/q/r.jsonl" [.entry exA2] revOrd).Info.Model ∧
    (ParseSessionFile "/p/q/r.jsonl" [.entry exA2] idOrd).Info.CWD
      = (ParseSessionFile "/p/q/r.jsonl" [.entry exA2] revOrd).Info.CWD ∧
    (ParseSessionFile "/p/q/r.jsonl" [.entry exA2] idOrd).Info.FilesRead.Perm
      (ParseSessionFile "/p/q/r.jsonl" [.entry exA2] revOrd).Info.FilesRead ∧
    (ParseSessionFile "/p/q/r.jsonl" [.entry exA2] idOrd).Info.FilesWritten.Perm
      (ParseSessionFile "/p/q/r.jsonl" [.entry exA2] revOrd).Info.FilesWritten ∧
    (ParseSessionFile "/p/q/r.jsonl" [.entry exA2] idOrd).Info.FilesCreated.Perm
      (ParseSessionFile "/p/q/r.jsonl" [.entry exA2] revOrd).Info.FilesCreated :=
  c1_determinism_amended "/p/q/r.jsonl" [.entry exA2] idOrd revOrd
    (fun l => List.Perm.refl l) (fun l => List.reverse_perm l)

/-- C2 (counterexample): on two revisions of one message ID with equal
timestamps, the resolver retains the earlier record in the file, not the
later one the claim describes. -/
theorem c2_tiebreak_counterexample :
    lookupGroup (resolve [exRev1, exRev2]) "m1"
      ≠ (lastMaxRevision [exRev1, exRev2] "m1").map
          (fun a => (⟨a, tsOf a⟩ : assistantGroup)) := by
  decide

/-- C2 (amended): among raw assistant records sharing one message ID, the
record with the strictly greatest parsed timestamp is retained; when several
records carry the maximal timestamp, the record occurring EARLIEST in the
file is the one retained (the replacement test is strict), and the retained
record indeed carries the greatest timestamp of its group. -/
theorem c2_tiebreak_amended (lines : List Line) (id : String) (hid : id ≠ "") :
    lookupGroup (resolve (decodedEntries lines)) id
      = (firstMaxRevision (decodedEntries lines) id).map
          (fun a => (⟨a, tsOf a⟩ : assistantGroup)) ∧
    (∀ a, firstMaxRevision (decodedEntries lines) id = some a →
      ∀ e' ∈ revisions (decodedEntries lines) id, tsOf e' ≤ tsOf a) := by
  refine ⟨resolve_lookup (decodedEntries lines) id hid, ?_⟩
  intro a hfm e' he'
  have := List.find?_some hfm
  unfold maxIn at this
  rw [List.all_eq_true] at this
  exact of_decide_eq_true (this e' he')

/-- C2 (witness): the amended tie-break at a concrete file holding two
equal-timestamp revisions of message `m1`. -/
theorem c2_tiebreak_witness :
    lookupGroup (resolve (decodedEntries [.entry exRev1, .entry exRev2])) "m1"
      = (firstMaxRevision (decodedEntries [.entry exRev1, .entry exRev2]) "m1").map
          (fun a => (⟨a, tsOf a⟩ : assistantGroup)) ∧
    (∀ a, firstMaxRevision (decodedEntries [.entry exRev1, .entry exRev2]) "m1"
        = some a →
      ∀ e' ∈ revisions (decodedEntries [.entry exRev1, .entry exRev2]) "m1",
        tsOf e' ≤ tsOf a) :=
  c2_tiebreak_amended [.entry exRev1, .entry exRev2] "m1" (by decide)

/-- C3 (counterexample): a file whose records carry decreasing timestamps
produces an Events list that is not non-decreasing by timestamp — the
builder appends in file order and never sorts. -/
theorem c3_ordering_counterexample :
    ¬ List.Pairwise (fun a b : Event => a.Timestamp ≤ b.Timestamp)
      (ParseSessionFile "/p/q/r.jsonl" [.entry exSysLate, .entry exSysEarly]
        idOrd).Events := by
  decide

/-- C3 (amended): events are emitted in file order of the entries at which
they are produced (the event list is the concatenation of the per-entry
blocks of the trace), and when the parsed timestamps of the file records
are non-decreasing in file order, the Events list is non-decreasing by
timestamp. -/
theorem c3_ordering_amended (path : String) (lines : List Line)
    (ord : List String → List String)
    (h : List.Pairwise (· ≤ ·) ((decodedEntries lines).map tsOf)) :
    (ParseSessionFile path lines ord).Events
      = (eventTrace (resolve (decodedEntries lines)) []
          (decodedEntries lines)).flatten ∧
    List.Pairwise (fun a b : Event => a.Timestamp ≤ b.Timestamp)
      (ParseSessionFile path lines ord).Events := by
  have hev : (ParseSessionFile path lines ord).Events
      = (eventTrace (resolve (decodedEntries lines)) []
          (decodedEntries lines)).flatten := by
    show (List.foldl (buildStep (resolve (decodedEntries lines))) {}
      (decodedEntries lines)).Events = _
    rw [build_events_trace]
    simp
  refine ⟨hev, ?_⟩
  rw [hev]
  exact eventTrace_sorted _ _ _ h

/-- C3 (witness): the amended ordering at a concrete three-record file with
increasing timestamps. -/
theorem c3_ordering_witness :
    (ParseSessionFile "/root/.claude/projects/-root-proj/abc.jsonl"
        [.entry exU1, .entry exA1, .entry exU2] idOrd).Events
      = (eventTrace (resolve (decodedEntries [.entry exU1, .entry exA1, .entry exU2]))
          [] (decodedEntries [.entry exU1, .entry exA1, .entry exU2])).flatten ∧
    List.Pairwise (fun a b : Event => a.Timestamp ≤ b.Timestamp)
      (ParseSessionFile "/root/.claude/projects/-root-proj/abc.jsonl"
        [.entry exU1, .entry exA1, .entry exU2] idOrd).Events :=
  c3_ordering_amended "/root/.claude/projects/-root-proj/abc.jsonl"
    [.entry exU1, .entry exA1, .entry exU2] idOrd (by decide)

/-- C4: every distinct non-empty assistant message ID of a file is emitted
exactly once into the timeline: the emission guard passes at exactly one
entry of the second pass, the Events list is the concatenation of the
per-entry blocks, and the block emitted for the ID is exactly the events of
its authoritative record. -/
theorem c4_exactly_once (path : String) (lines : List Line)
    (ord : List String → List String) (id : String)
    (h : id ∈ assistantIds (decodedEntries lines)) :
    (emitTrace (resolve (decodedEntries lines)) []
        (decodedEntries lines)).count (some id) = 1 ∧
    (ParseSessionFile path lines ord).Events
      = (eventTrace (resolve (decodedEntries lines)) []
          (decodedEntries lines)).flatten ∧
    (∀ seen e g,
      firingOf (resolve (decodedEntries lines)) seen e = some (id, g) →
      lookupGroup (resolve (decodedEntries lines)) id = some g ∧
      stepEvents (resolve (decodedEntries lines)) seen e
        = parseAssistantMessage g.entry (tsOf e)) := by
  refine ⟨emitTrace_count_one _ id _ [] (by simp)
    (assistantIds_matches _ id h), ?_, ?_⟩
  · show (List.foldl (buildStep (resolve (decodedEntries lines))) {}
      (decodedEntries lines)).Events = _
    rw [build_events_trace]
    simp
  · intro seen e g hf
    exact ⟨firingOf_lookup _ _ _ _ _ hf, stepEvents_of_firing _ _ _ _ _ hf⟩

/-- C4 (witness): exactly-once emission of message `m1` in a concrete file. -/
theorem c4_exactly_once_witness :
    (emitTrace (resolve (decodedEntries [.entry exU1, .entry exA1, .entry exU2]))
        [] (decodedEntries [.entry exU1, .entry exA1, .entry exU2])).count
        (some "m1") = 1 ∧
    (ParseSessionFile "/root/.claude/projects/-root-proj/abc.jsonl"
        [.entry exU1, .entry exA1, .entry exU2] idOrd).Events
      = (eventTrace (resolve (decodedEntries [.entry exU1, .entry exA1, .entry exU2]))
          [] (decodedEntries [.entry exU1, .entry exA1, .entry exU2])).flatten ∧
    (∀ seen e g,
      firingOf (resolve (decodedEntries [.entry exU1, .entry exA1, .entry exU2]))
          seen e = some ("m1", g) →
      lookupGroup (resolve (decodedEntries [.entry exU1, .entry exA1, .entry exU2]))
          "m1" = some g ∧
      stepEvents (resolve (decodedEntries [.entry exU1, .entry exA1, .entry exU2]))
          seen e = parseAssistantMessage g.entry (tsOf e)) :=
  c4_exactly_once "/root/.claude/projects/-root-proj/abc.jsonl"
    [.entry exU1, .entry exA1, .entry exU2] idOrd "m1" (by decide)

/-- C5: the four token counters of a parsed session equal the sums, over
the distinct non-empty assistant message IDs of the file, of the usage
carried by each ID's authoritative record — independent of how many raw
revision records existed per ID and of how many events each record
emitted. -/
theorem c5_token_sums (path : String) (lines : List Line)
    (ord : List String → List String) :
    (ParseSessionFile path lines ord).Info.InputTokens
      = ((assistantIds (decodedEntries lines)).map
          (fun id => (authUsage (resolve (decodedEntries lines)) id).InputTokens)).sum ∧
    (ParseSessionFile path lines ord).Info.OutputTokens
      = ((assistantIds (decodedEntries lines)).map
          (fun id => (authUsage (resolve (decodedEntries lines)) id).OutputTokens)).sum ∧
    (ParseSessionFile path lines ord).Info.CacheReadTokens
      = ((assistantIds (decodedEntries lines)).map
          (fun id => (authUsage (resolve (decodedEntries lines)) id).CacheReadInputTokens)).sum ∧
    (ParseSessionFile path lines ord).Info.CacheWriteTokens
      = ((assistantIds (decodedEntries lines)).map
          (fun id => (authUsage (resolve (decodedEntries lines)) id).CacheCreationInputTokens)).sum := by
  obtain ⟨t1, t2, t3, t4⟩ :=
    build_tokens_trace (resolve (decodedEntries lines)) (decodedEntries lines) {}
  refine ⟨?_, ?_, ?_, ?_⟩
  · show (List.foldl (buildStep (resolve (decodedEntries lines))) {}
      (decodedEntries lines)).InputTokens = _
    rw [t1]
    simpa using trace_sum_eq (decodedEntries lines) (fun u => u.InputTokens) rfl
  · show (List.foldl (buildStep (resolve (decodedEntries lines))) {}
      (decodedEntries lines)).OutputTokens = _
    rw [t2]
    simpa using trace_sum_eq (decodedEntries lines) (fun u => u.OutputTokens) rfl
  · show (List.foldl (buildStep (resolve (decodedEntries lines))) {}
      (decodedEntries lines)).CacheReadTokens = _
    rw [t3]
    simpa using trace_sum_eq (decodedEntries lines)
      (fun u => u.CacheReadInputTokens) rfl
  · show (List.foldl (buildStep (resolve (decodedEntries lines))) {}
      (decodedEntries lines)).CacheWriteTokens = _
    rw [t4]
    simpa using trace_sum_eq (decodedEntries lines)
      (fun u => u.CacheCreationInputTokens) rfl

/-- C6: a file whose parse yields zero events is never inserted into the
store, neither by the initial scan nor by the watcher's re-parse: every
stored session has a non-empty event list, `GetSession` never returns an
empty session, and `GetSessions` never lists one. -/
theorem c6_empty_exclusion (ord : List String → List String)
    (files ws : List ScanFile) :
    (∀ p ∈ storeAfter ord files ws, (p : String × Session).2.Events ≠ []) ∧
    (∀ id sess, storeGet (storeAfter ord files ws) id = some sess →
      sess.Events ≠ []) ∧
    (∀ info ∈ GetSessions (storeAfter ord files ws), info.EventCount ≠ 0) := by
  have hwf := storeWF_storeAfter ord files ws
  refine ⟨fun p hp => (hwf p hp).1, ?_, ?_⟩
  · intro id sess h
    obtain ⟨k, hk⟩ := storeGet_mem _ id sess h
    exact (hwf (k, sess) hk).1
  · intro info hinfo
    obtain ⟨p, hp, heq⟩ := GetSessions_mem _ info hinfo
    obtain ⟨hne, hcount⟩ := hwf p hp
    rw [heq, hcount]
    intro h0
    apply hne
    have hz : p.2.Events.length = 0 := by exact_mod_cast h0
    exact List.length_eq_zero.mp hz

/-- C6 (witness): in a scan of one three-event file and one empty file, the
three-event session is stored and has a non-empty event list (the empty one
is excluded by `storeWF_storeAfter`). -/
theorem c6_empty_exclusion_witness :
    ("abc", ParseSessionFile "/root/.claude/projects/-root-proj/abc.jsonl"
        [.entry exU1, .entry exA1, .entry exU2] idOrd)
      ∈ storeAfter idOrd exScanFiles [] ∧
    (ParseSessionFile "/root/.claude/projects/-root-proj/abc.jsonl"
        [.entry exU1, .entry exA1, .entry exU2] idOrd).Events ≠ [] := by
  have hmem : ("abc", ParseSessionFile "/root/.claude/projects/-root-proj/abc.jsonl"
      [.entry exU1, .entry exA1, .entry exU2] idOrd)
      ∈ storeAfter idOrd exScanFiles [] := List.Mem.head _
  exact ⟨hmem, (c6_empty_exclusion idOrd exScanFiles []).1 _ hmem⟩

/-- C7: a `user` record flagged as an injected compact summary generates
zero events, regardless of its payload: its build step leaves the event
list unchanged. -/
theorem c7_compact_summary_excluded (m : ResolveMap) (s : BuildState)
    (e : rawEntry) (h1 : e.type = "user") (h2 : e.IsCompactSummary = true) :
    (buildStep m s e).Events = s.Events ∧ stepEvents m s.seen e = [] := by
  have hstep : stepEvents m s.seen e = [] := by
    unfold stepEvents
    rw [if_neg (by rw [h1]; decide), if_pos h1]
    rcases hm : e.Message with _ | msg <;> simp [hm, h2]
  exact ⟨by rw [buildStep_Events, hstep, List.append_nil], hstep⟩

/-- C7 (witness): the compact-summary record of the examples produces no
events from any state. -/
theorem c7_compact_summary_excluded_witness :
    (buildStep [] {} exCompactSummary).Events = ({} : BuildState).Events ∧
    stepEvents [] ({} : BuildState).seen exCompactSummary = [] :=
  c7_compact_summary_excluded [] {} exCompactSummary rfl rfl

theorem decodedEntries_skip_malformed :
    ∀ l1 l2 : List Line,
      decodedEntries (l1 ++ Line.malformed :: l2) = decodedEntries (l1 ++ l2)
  | [], _ => rfl
  | l :: l1, l2 => by
    cases l with
    | empty =>
      simp only [List.cons_append, decodedEntries]
      exact decodedEntries_skip_malformed l1 l2
    | malformed =>
      simp only [List.cons_append, decodedEntries]
      exact decodedEntries_skip_malformed l1 l2
    | tooLong => rfl
    | entry e =>
      simp only [List.cons_append, decodedEntries]
      exact congrArg (e :: ·) (decodedEntries_skip_malformed l1 l2)

theorem decodedEntries_skip_empty :
    ∀ l1 l2 : List Line,
      decodedEntries (l1 ++ Line.empty :: l2) = decodedEntries (l1 ++ l2)
  | [], _ => rfl
  | l :: l1, l2 => by
    cases l with
    | empty =>
      simp only [List.cons_append, decodedEntries]
      exact decodedEntries_skip_empty l1 l2
    | malformed =>
      simp only [List.cons_append, decodedEntries]
      exact decodedEntries_skip_empty l1 l2
    | tooLong => rfl
    | entry e =>
      simp only [List.cons_append, decodedEntries]
      exact congrArg (e :: ·) (decodedEntries_skip_empty l1 l2)

theorem decodedEntries_truncate :
    ∀ l1 l2 : List Line,
      decodedEntries (l1 ++ Line.tooLong :: l2) = decodedEntries l1
  | [], _ => rfl
  | l :: l1, l2 => by
    cases l with
    | empty =>
      simp only [List.cons_append, decodedEntries]
      exact decodedEntries_truncate l1 l2
    | malformed =>
      simp only [List.cons_append, decodedEntries]
      exact decodedEntries_truncate l1 l2
    | tooLong => rfl
    | entry e =>
      simp only [List.cons_append, decodedEntries]
      exact congrArg (e :: ·) (decodedEntries_truncate l1 l2)

/-- C8 (counterexample): it is not the case that every line failing to
decode is skipped with parsing continuing at the next line: a line
exceeding the 10MB scanner buffer ends the scan silently (`scanner.Err` is
never checked), so a well-formed line after it contributes nothing — the
parse differs from the parse of the file without the offending line. -/
theorem c8_malformed_skip_counterexample :
    ParseSessionFile "/p/q/r.jsonl" [Line.tooLong, .entry exU1] idOrd
      ≠ ParseSessionFile "/p/q/r.jsonl" [.entry exU1] idOrd := by
  intro h
  have h' := congrArg (fun sess => sess.Events) h
  exact absurd h' (by decide)

/-- C8 (amended): a line on which `json.Unmarshal` fails, and a zero-length
line, is skipped and parsing continues with the next line — the resulting
Session is exactly that of the file without the line, and no error is
raised (the only error exit of the source is the initial open, before any
line is read).  A line exceeding the 10MB scanner buffer, however, ends the
scan silently: lines before it still contribute their records, every line
after it is dropped, and still no error is raised. -/
theorem c8_malformed_skip (path : String) (l1 l2 : List Line)
    (ord : List String → List String) :
    ParseSessionFile path (l1 ++ Line.malformed :: l2) ord
      = ParseSessionFile path (l1 ++ l2) ord ∧
    ParseSessionFile path (l1 ++ Line.empty :: l2) ord
      = ParseSessionFile path (l1 ++ l2) ord ∧
    ParseSessionFile path (l1 ++ Line.tooLong :: l2) ord
      = ParseSessionFile path l1 ord := by
  refine ⟨?_, ?_, ?_⟩ <;> unfold ParseSessionFile
  · rw [decodedEntries_skip_malformed]
  · rw [decodedEntries_skip_empty]
  · rw [decodedEntries_truncate]

/-- C9: an assistant record whose message is absent or whose message ID is
empty contributes no events and no token usage, while its parsed timestamp
still drives the StartTime/LastUpdate update of its build step. -/
theorem c9_assistant_no_id (m : ResolveMap) (s : BuildState) (e : rawEntry)
    (h1 : e.type = "assistant")
    (h2 : e.Message = none ∨ ∃ msg, e.Message = some msg ∧ msg.ID = "") :
    (buildStep m s e).Events = s.Events ∧
    (buildStep m s e).InputTokens = s.InputTokens ∧
    (buildStep m s e).OutputTokens = s.OutputTokens ∧
    (buildStep m s e).CacheReadTokens = s.CacheReadTokens ∧
    (buildStep m s e).CacheWriteTokens = s.CacheWriteTokens ∧
    (buildStep m s e).StartTime
      = (if s.StartTime.isZero || (!(tsOf e).isZero && (tsOf e).before s.StartTime)
          then tsOf e else s.StartTime) ∧
    (buildStep m s e).LastUpdate
      = (if (tsOf e).after s.LastUpdate then tsOf e else s.LastUpdate) := by
  have hfire : firingOf m s.seen e = none := by
    unfold firingOf
    rw [if_pos h1]
    rcases h2 with hm | ⟨msg, hm, hid⟩
    · rw [hm]
    · simp [hm, hid]
  have hstep : stepEvents m s.seen e = [] := by
    unfold stepEvents
    rw [if_neg (by rw [h1]; decide), if_neg (by rw [h1]; decide), if_pos h1,
      hfire]
  have husage : stepUsage m s.seen e = {} := by
    unfold stepUsage
    rw [hfire]
  obtain ⟨hu1, hu2, hu3, hu4⟩ := buildStep_usage m s e
  obtain ⟨ht1, ht2⟩ := buildStep_times m s e
  refine ⟨by rw [buildStep_Events, hstep, List.append_nil], ?_, ?_, ?_, ?_, ?_, ?_⟩
  · rw [hu1, husage]; simp
  · rw [hu2, husage]; simp
  · rw [hu3, husage]; simp
  · rw [hu4, husage]; simp
  · rw [ht1, updateTimes_eq]
  · rw [ht2, updateTimes_eq]

/-- C9 (witness): the empty-ID assistant record with usage 99 in, 98 out
contributes nothing to events or counters, but stamps the times. -/
theorem c9_assistant_no_id_witness :
    (buildStep [] {} exNoId).Events = ({} : BuildState).Events ∧
    (buildStep [] {} exNoId).InputTokens = ({} : BuildState).InputTokens ∧
    (buildStep [] {} exNoId).OutputTokens = ({} : BuildState).OutputTokens ∧
    (buildStep [] {} exNoId).CacheReadTokens = ({} : BuildState).CacheReadTokens ∧
    (buildStep [] {} exNoId).CacheWriteTokens = ({} : BuildState).CacheWriteTokens ∧
    (buildStep [] {} exNoId).StartTime
      = (if ({} : BuildState).StartTime.isZero
          || (!(tsOf exNoId).isZero
            && (tsOf exNoId).before ({} : BuildState).StartTime)
          then tsOf exNoId else ({} : BuildState).StartTime) ∧
    (buildStep [] {} exNoId).LastUpdate
      = (if (tsOf exNoId).after ({} : BuildState).LastUpdate then tsOf exNoId
          else ({} : BuildState).LastUpdate) :=
  c9_assistant_no_id [] {} exNoId rfl (Or.inr ⟨exNoIdMsg, rfl, rfl⟩)

/-- C10 (counterexample): for a project directory name ending in a hyphen,
ProjectName (filepath.Base of ProjectDir) is not the last slash-separated
component of ProjectDir — the trailing slash produced by the hyphen
replacement is stripped by Base, while the last component is empty. -/
theorem c10_identity_counterexample :
    (ParseSessionFile "/p/foo-/x.jsonl" [] idOrd).Info.ProjectName
      ≠ lastSlashComponent
          (ParseSessionFile "/p/foo-/x.jsonl" [] idOrd).Info.ProjectDir := by
  decide

/-- C10 (amended): session identity derives purely from the path — ID is
the basename with a trailing ".jsonl" removed, IsAgent holds exactly when
the basename starts with "agent-", ProjectDir is the parent directory name
with every hyphen replaced by a slash, and ProjectName is `filepath.Base`
of ProjectDir, which equals the last slash-separated component whenever
ProjectDir is non-empty and does not end in a slash (that is, whenever the
directory name does not end in a hyphen). -/
theorem c10_identity_amended (path : String) (lines : List Line)
    (ord : List String → List String) :
    (ParseSessionFile path lines ord).Info.ID
      = goTrimSuffix (goBase path) ".jsonl" ∧
    (ParseSessionFile path lines ord).Info.IsAgent
      = goStartsWith (goBase path) "agent-" ∧
    (ParseSessionFile path lines ord).Info.ProjectDir
      = goReplaceDashSlash (goBase (goDir path)) ∧
    (ParseSessionFile path lines ord).Info.ProjectName
      = goBase (ParseSessionFile path lines ord).Info.ProjectDir ∧
    ((ParseSessionFile path lines ord).Info.ProjectDir ≠ "" →
      (ParseSessionFile path lines ord).Info.ProjectDir.data.getLast?
        ≠ some '/' →
      (ParseSessionFile path lines ord).Info.ProjectName
        = lastSlashComponent (ParseSessionFile path lines ord).Info.ProjectDir) := by
  refine ⟨rfl, rfl, rfl, rfl, ?_⟩
  intro hne hsl
  exact goBase_eq_lastComponent _ hne hsl

/-- C10 (witness): the identity fields at a concrete path whose directory
name has an interior hyphen. -/
theorem c10_identity_witness :
    (ParseSessionFile "/p/q-r/s.jsonl" [] idOrd).Info.ID
      = goTrimSuffix (goBase "/p/q-r/s.jsonl") ".jsonl" ∧
    (ParseSessionFile "/p/q-r/s.jsonl" [] idOrd).Info.IsAgent
      = goStartsWith (goBase "/p/q-r/s.jsonl") "agent-" ∧
    (ParseSessionFile "/p/q-r/s.jsonl" [] idOrd).Info.ProjectDir
      = goReplaceDashSlash (goBase (goDir "/p/q-r/s.jsonl")) ∧
    (ParseSessionFile "/p/q-r/s.jsonl" [] idOrd).Info.ProjectName
      = goBase (ParseSessionFile "/p/q-r/s.jsonl" [] idOrd).Info.ProjectDir ∧
    (ParseSessionFile "/p/q-r/s.jsonl" [] idOrd).Info.ProjectName
      = lastSlashComponent
          (ParseSessionFile "/p/q-r/s.jsonl" [] idOrd).Info.ProjectDir := by
  have h := c10_identity_amended "/p/q-r/s.jsonl" [] idOrd
  exact ⟨h.1, h.2.1, h.2.2.1, h.2.2.2.1,
    h.2.2.2.2 (by decide) (by decide)⟩

end Verbose
